import Mathlib

/-! Exotic: sparse-set component storage and the registry over it.

A shallow embedding of `src/test.hpp` (class template `Sparse<T>`) and
`src/main.cpp` (class template `Registry<Ts...>`).

* `std::vector` is a `List`; `std::size_t` is a `Nat` below `2 ^ w`, where `w`
  is the width of the size type of the platform, and `SIZE_MAX = 2 ^ w - 1`.
* A member function that writes to the object takes the state and returns the
  new state, together with the diagnostic it printed on `std::cerr`, if any.
* An access the C++ standard leaves undefined (a subscript beyond the end of a
  vector) ends the computation with a `Fault`.
* A pointer into `dense_` is the position it points to.
* Allocation failure is outside the model.
-/

namespace Exotic

/-- Undefined behaviour the code can run into. -/
inductive Fault where
  | out_of_bounds
  deriving DecidableEq

/-- Diagnostics of `Sparse`, named after the private member functions
`error_not_enough_capacity`, `error_entity_has_no_component` and
`error_entity_already_has_component` that print them. -/
inductive Diag where
  | not_enough_capacity
  | entity_has_no_component
  | entity_already_has_component
  deriving DecidableEq

deriving instance DecidableEq for Except

/-- The constant `SIZE_MAX` of a `w`-bit `std::size_t`. -/
def SIZE_MAX (w : Nat) : Nat := 2 ^ w - 1

/-- Subtraction `a - b` of two `w`-bit `std::size_t` values (wraps around). -/
def size_sub (w a b : Nat) : Nat := (a + (2 ^ w - b % 2 ^ w)) % 2 ^ w

/-- Unchecked read `xs[i]` of a `std::vector`. -/
def vec_read {α : Type} (xs : List α) (i : Nat) : Except Fault α :=
  match xs[i]? with
  | some a => .ok a
  | none => .error .out_of_bounds

/-- Unchecked write `xs[i] = a` of a `std::vector`. -/
def vec_write {α : Type} (xs : List α) (i : Nat) (a : α) : Except Fault (List α) :=
  if i < xs.length then .ok (xs.set i a) else .error .out_of_bounds

/-- The call `std::swap(xs[i], xs[j])` on a `std::vector`. -/
def vec_swap {α : Type} (xs : List α) (i j : Nat) : Except Fault (List α) :=
  match xs[i]?, xs[j]? with
  | some a, some b => .ok ((xs.set i b).set j a)
  | _, _ => .error .out_of_bounds

/-- The data members of `Sparse<T>`: `sparse_` (entity id to dense position),
`reverse_` (dense position to entity id), `dense_` (the components), and the
allocated capacity of `sparse_`, which `capacity()` and `reserve()` expose. -/
structure Sparse (w : Nat) (T : Type) where
  sparse_ : List Nat
  reverse_ : List Nat
  dense_ : List T
  sparse_capacity : Nat
  deriving DecidableEq

namespace Sparse

variable {w : Nat} {T : Type}

/-- The constructor `Sparse(init_dense_capacity, init_sparse_capacity)`.
The capacity reserved for `dense_` and `reverse_` is not observable through
the class and is not kept. -/
def init (w : Nat) (T : Type) (init_dense_capacity init_sparse_capacity : Nat) :
    Sparse w T :=
  let _ := init_dense_capacity
  { sparse_ := List.replicate init_sparse_capacity (SIZE_MAX w)
    reverse_ := []
    dense_ := []
    sparse_capacity := init_sparse_capacity }

/-- The default arguments of the constructor. -/
def DEFAULT_DENSE_CAPACITY : Nat := 2048

/-- The default arguments of the constructor. -/
def DEFAULT_SPARSE_CAPACITY : Nat := 16384

/-- Member `is_valid_entity_id`. -/
def is_valid_entity_id (s : Sparse w T) (entity_id : Nat) : Bool :=
  decide (entity_id < s.sparse_.length)

/-- Member `contains`: the subscript is only evaluated for a valid id. -/
def contains (s : Sparse w T) (entity_id : Nat) : Bool :=
  if h : entity_id < s.sparse_.length then s.sparse_[entity_id] != SIZE_MAX w else false

/-- Member `insert`. -/
def insert (s : Sparse w T) (entity_id : Nat) (component : T) :
    Sparse w T × Option Diag :=
  if !s.is_valid_entity_id entity_id then (s, some .not_enough_capacity)
  else if s.contains entity_id then (s, some .entity_already_has_component)
  else
    let dense1 := s.dense_ ++ [component]
    let component_index := dense1.length - 1
    ({ s with
        dense_ := dense1
        sparse_ := s.sparse_.set entity_id component_index
        reverse_ := s.reverse_ ++ [entity_id] }, none)

/-- Member `emplace_default`. -/
def emplace_default [Inhabited T] (s : Sparse w T) (entity_id : Nat) :
    Sparse w T × Option Diag :=
  if !s.is_valid_entity_id entity_id then (s, some .not_enough_capacity)
  else if s.contains entity_id then (s, some .entity_already_has_component)
  else
    let dense1 := s.dense_ ++ [(default : T)]
    let component_index := dense1.length - 1
    ({ s with
        dense_ := dense1
        sparse_ := s.sparse_.set entity_id component_index
        reverse_ := s.reverse_ ++ [entity_id] }, none)

/-- Member `remove_swap`. -/
def remove_swap (s : Sparse w T) (entity_id : Nat) :
    Except Fault (Sparse w T × Option Diag) :=
  if !s.is_valid_entity_id entity_id then .ok (s, some .not_enough_capacity)
  else if !s.contains entity_id then .ok (s, some .entity_has_no_component)
  else do
    let component_index ← vec_read s.sparse_ entity_id
    let last_component_index := size_sub w s.dense_.length 1
    let last_entity_id ← vec_read s.reverse_ last_component_index
    let dense1 ← vec_swap s.dense_ component_index (size_sub w s.dense_.length 1)
    let dense2 := dense1.dropLast
    let reverse1 ← vec_swap s.reverse_ component_index last_component_index
    let reverse2 := reverse1.dropLast
    let sparse1 ← vec_write s.sparse_ last_entity_id component_index
    let sparse2 ← vec_write sparse1 entity_id (SIZE_MAX w)
    pure ({ s with sparse_ := sparse2, reverse_ := reverse2, dense_ := dense2 }, none)

/-- Member `count`. -/
def count (s : Sparse w T) : Nat := s.dense_.length

/-- Member `capacity`: the capacity of `sparse_`, not its size. -/
def capacity (s : Sparse w T) : Nat := s.sparse_capacity

/-- Member `reserve`: `sparse_.reserve(new_capacity)` leaves the elements and
the size of `sparse_` alone and raises its capacity to `new_capacity` when that
is larger. -/
def reserve (s : Sparse w T) (new_capacity : Nat) : Sparse w T :=
  if s.sparse_capacity < new_capacity then { s with sparse_capacity := new_capacity } else s

/-- Member `clear_sparse`. -/
def clear_sparse (s : Sparse w T) : Sparse w T := { s with sparse_ := [] }

/-- Member `clear_dense`. -/
def clear_dense (s : Sparse w T) : Sparse w T := { s with dense_ := [] }

/-- Member `clear_binding`. -/
def clear_binding (s : Sparse w T) : Sparse w T := { s with reverse_ := [] }

/-- Member `get` of a const object: `nullopt`, or the address of
`dense_[sparse_[entity_id]]`, which is that position. -/
def get (s : Sparse w T) (entity_id : Nat) : Except Fault (Option Nat) :=
  if h : entity_id < s.sparse_.length then
    if s.sparse_[entity_id] == SIZE_MAX w then .ok none
    else if s.sparse_[entity_id] < s.dense_.length then .ok (some s.sparse_[entity_id])
    else .error .out_of_bounds
  else .ok none

/-- Member `get` of a non-const object: the same body, on an object it may
write to. -/
def get_mut (s : Sparse w T) (entity_id : Nat) : Except Fault (Option Nat × Sparse w T) :=
  if h : entity_id < s.sparse_.length then
    if s.sparse_[entity_id] == SIZE_MAX w then .ok (none, s)
    else if s.sparse_[entity_id] < s.dense_.length then .ok (some s.sparse_[entity_id], s)
    else .error .out_of_bounds
  else .ok (none, s)

/-- The component a pointer returned by `get` refers to. -/
def deref (s : Sparse w T) (p : Nat) : Option T := s.dense_[p]?

/-- The component `get(entity_id)` refers to, if it returns a pointer. -/
def get_component (s : Sparse w T) (entity_id : Nat) : Except Fault (Option T) :=
  match s.get entity_id with
  | .ok (some p) => .ok (s.deref p)
  | .ok none => .ok none
  | .error f => .error f

/-- Member `batch_insert`: the fold `(insert(entity_ids, component), ...)` over a
non-empty pack, the head `entity_id` and the rest `entity_ids`. -/
def batch_insert (s : Sparse w T) (entity_id : Nat) (entity_ids : List Nat) (component : T) :
    Sparse w T × List (Option Diag) :=
  match entity_ids with
  | [] => let r := s.insert entity_id component; (r.1, [r.2])
  | next :: rest =>
    let r := s.insert entity_id component
    let q := batch_insert r.1 next rest component
    (q.1, r.2 :: q.2)

/-- Member `batch_emplace`: the fold `(emplace_default(entity_ids), ...)`. -/
def batch_emplace [Inhabited T] (s : Sparse w T) (entity_id : Nat) (entity_ids : List Nat) :
    Sparse w T × List (Option Diag) :=
  match entity_ids with
  | [] => let r := s.emplace_default entity_id; (r.1, [r.2])
  | next :: rest =>
    let r := s.emplace_default entity_id
    let q := batch_emplace r.1 next rest
    (q.1, r.2 :: q.2)

/-- Member `batch_remove_swap`: the fold `(remove_swap(entity_ids), ...)`. -/
def batch_remove_swap (s : Sparse w T) (entity_id : Nat) (entity_ids : List Nat) :
    Except Fault (Sparse w T × List (Option Diag)) :=
  match entity_ids with
  | [] => do
    let r ← s.remove_swap entity_id
    pure (r.1, [r.2])
  | next :: rest => do
    let r ← s.remove_swap entity_id
    let q ← batch_remove_swap r.1 next rest
    pure (q.1, r.2 :: q.2)

/-- Member `operator[]`: the same body as `get`. -/
def subscript (s : Sparse w T) (entity_id : Nat) : Except Fault (Option Nat) :=
  if h : entity_id < s.sparse_.length then
    if s.sparse_[entity_id] == SIZE_MAX w then .ok none
    else if s.sparse_[entity_id] < s.dense_.length then .ok (some s.sparse_[entity_id])
    else .error .out_of_bounds
  else .ok none

/-- Members `begin` and `end`: the range between the two iterators is `dense_`,
first element to last. -/
def iterate (s : Sparse w T) : List T := s.dense_

/-- Member `insert`, with the subscript `sparse_[entity_id]` of its assignment
read as an unchecked write that faults beyond the end of `sparse_`. -/
def insert_checked (s : Sparse w T) (entity_id : Nat) (component : T) :
    Except Fault (Sparse w T × Option Diag) :=
  if !s.is_valid_entity_id entity_id then .ok (s, some .not_enough_capacity)
  else if s.contains entity_id then .ok (s, some .entity_already_has_component)
  else do
    let dense1 := s.dense_ ++ [component]
    let component_index := dense1.length - 1
    let sparse1 ← vec_write s.sparse_ entity_id component_index
    pure ({ s with
        dense_ := dense1
        sparse_ := sparse1
        reverse_ := s.reverse_ ++ [entity_id] }, none)

/-- Member `emplace_default`, with the subscript `sparse_[entity_id]` of its
assignment read as an unchecked write that faults beyond the end of `sparse_`. -/
def emplace_default_checked [Inhabited T] (s : Sparse w T) (entity_id : Nat) :
    Except Fault (Sparse w T × Option Diag) :=
  if !s.is_valid_entity_id entity_id then .ok (s, some .not_enough_capacity)
  else if s.contains entity_id then .ok (s, some .entity_already_has_component)
  else do
    let dense1 := s.dense_ ++ [(default : T)]
    let component_index := dense1.length - 1
    let sparse1 ← vec_write s.sparse_ entity_id component_index
    pure ({ s with
        dense_ := dense1
        sparse_ := sparse1
        reverse_ := s.reverse_ ++ [entity_id] }, none)

/-! ## The invariants of the three arrays -/

/-- Invariant 1: `dense_` and `reverse_` have the same length. -/
def invariant1 (s : Sparse w T) : Prop := s.dense_.length = s.reverse_.length

/-- Invariant 2: a sparse slot that is not `SIZE_MAX` holds a dense position,
and `reverse_` maps that position back to the id. -/
def invariant2 (s : Sparse w T) : Prop :=
  ∀ e i : Nat, s.sparse_[e]? = some i → i ≠ SIZE_MAX w →
    i < s.dense_.length ∧ s.reverse_[i]? = some e

/-- Invariant 3: `reverse_` maps a dense position to a valid id whose sparse
slot holds that position. -/
def invariant3 (s : Sparse w T) : Prop :=
  ∀ i : Nat, i < s.dense_.length →
    ∃ e : Nat, s.reverse_[i]? = some e ∧ e < s.sparse_.length ∧ s.sparse_[e]? = some i

/-- The inductive invariant: the three invariants of the arrays, and the size
of `sparse_` is a `std::size_t`, so it is at most `SIZE_MAX`, and at most the
capacity of `sparse_`. -/
structure Inv (s : Sparse w T) : Prop where
  len : s.dense_.length = s.reverse_.length
  fwd : ∀ e i : Nat, s.sparse_[e]? = some i → i ≠ SIZE_MAX w →
    i < s.dense_.length ∧ s.reverse_[i]? = some e
  bwd : ∀ i e : Nat, s.reverse_[i]? = some e → s.sparse_[e]? = some i
  size : s.sparse_.length ≤ SIZE_MAX w
  cap : s.sparse_.length ≤ s.sparse_capacity

/-! ## Reachable states -/

/-- The states of a `Sparse<T>` object that a program can reach: the constructor
with any two `std::size_t` capacities, followed by any calls of `insert`,
`emplace_default`, `remove_swap`, `reserve` and the batch variants. -/
inductive Reachable : Sparse w T → Prop where
  | init (init_dense_capacity init_sparse_capacity : Nat)
      (hd : init_dense_capacity < 2 ^ w) (hs : init_sparse_capacity < 2 ^ w) :
      Reachable (Sparse.init w T init_dense_capacity init_sparse_capacity)
  | insert {s : Sparse w T} (e : Nat) (v : T) : Reachable s → Reachable (s.insert e v).1
  | emplace_default [Inhabited T] {s : Sparse w T} (e : Nat) :
      Reachable s → Reachable (s.emplace_default e).1
  | remove_swap {s : Sparse w T} (e : Nat) {r : Sparse w T × Option Diag} :
      Reachable s → s.remove_swap e = .ok r → Reachable r.1
  | reserve {s : Sparse w T} (n : Nat) : Reachable s → Reachable (s.reserve n)
  | batch_insert {s : Sparse w T} (e : Nat) (ids : List Nat) (v : T) :
      Reachable s → Reachable (s.batch_insert e ids v).1
  | batch_emplace [Inhabited T] {s : Sparse w T} (e : Nat) (ids : List Nat) :
      Reachable s → Reachable (s.batch_emplace e ids).1
  | batch_remove_swap {s : Sparse w T} (e : Nat) (ids : List Nat)
      {r : Sparse w T × List (Option Diag)} :
      Reachable s → s.batch_remove_swap e ids = .ok r → Reachable r.1

/-! ## What a lookup finds -/

/-- The component that the arrays hold for an id: the dense element at the
position in its sparse slot, when that slot is not `SIZE_MAX`. -/
def lookup (s : Sparse w T) (e : Nat) : Option T :=
  match s.sparse_[e]? with
  | some i => if i = SIZE_MAX w then none else s.dense_[i]?
  | none => none

/-- The history of an object, abstractly: `Stores m s` when calls lead from the
constructor to the state `s`, and `m e` is the component that the last
successful `insert` or `emplace_default` for the id `e` stored, or `none` when
there was none or a successful `remove_swap` for `e` followed it. A call is
successful when it prints no diagnostic. -/
inductive Stores : (Nat → Option T) → Sparse w T → Prop where
  | init (init_dense_capacity init_sparse_capacity : Nat)
      (hd : init_dense_capacity < 2 ^ w) (hs : init_sparse_capacity < 2 ^ w) :
      Stores (fun _ => none) (Sparse.init w T init_dense_capacity init_sparse_capacity)
  | insert {m : Nat → Option T} {s : Sparse w T} (e : Nat) (v : T) : Stores m s →
      Stores (if (s.insert e v).2 = none then Function.update m e (some v) else m)
        (s.insert e v).1
  | emplace_default [Inhabited T] {m : Nat → Option T} {s : Sparse w T} (e : Nat) :
      Stores m s →
      Stores (if (s.emplace_default e).2 = none then Function.update m e (some default) else m)
        (s.emplace_default e).1
  | remove_swap {m : Nat → Option T} {s : Sparse w T} (e : Nat)
      {r : Sparse w T × Option Diag} : Stores m s → s.remove_swap e = .ok r →
      Stores (if r.2 = none then Function.update m e none else m) r.1
  | reserve {m : Nat → Option T} {s : Sparse w T} (n : Nat) : Stores m s →
      Stores m (s.reserve n)

/-! ## Batches, as the specification words them -/

/-- Calling `insert(id, component)` for each id of the list, from left to right;
every call starts from the state the call before it left, whatever it printed. -/
def insert_each (s : Sparse w T) (ids : List Nat) (component : T) :
    Sparse w T × List (Option Diag) :=
  ids.foldl
    (fun acc id => ((acc.1.insert id component).1, acc.2 ++ [(acc.1.insert id component).2]))
    (s, [])

/-- Calling `emplace_default(id)` for each id of the list, from left to right. -/
def emplace_each [Inhabited T] (s : Sparse w T) (ids : List Nat) :
    Sparse w T × List (Option Diag) :=
  ids.foldl
    (fun acc id => ((acc.1.emplace_default id).1, acc.2 ++ [(acc.1.emplace_default id).2]))
    (s, [])

/-- Calling `remove_swap(id)` for each id of the list, from left to right. -/
def remove_swap_each (s : Sparse w T) (ids : List Nat) :
    Except Fault (Sparse w T × List (Option Diag)) :=
  ids.foldlM
    (fun acc id =>
      match acc.1.remove_swap id with
      | .ok r => .ok (r.1, acc.2 ++ [r.2])
      | .error f => .error f)
    (s, [])

/-- The ids for which `contains` is true, in increasing order; `contains` is
false for every id at or beyond the size of `sparse_`. -/
def present_ids (s : Sparse w T) : List Nat :=
  (List.range s.sparse_.length).filter s.contains

end Sparse

/-! ## The registry -/

/-- The data member of `Registry<Ts...>`: the tuple `storage_` of one
`Sparse<Ts>` for each of the `n` component types. A component type is named by
its place in the list, as `std::get<Sparse<T>>` finds it. -/
structure Registry (w : Nat) {n : Nat} (Ts : Fin n → Type) where
  storage_ : (i : Fin n) → Sparse w (Ts i)

namespace Registry

variable {w n : Nat} {Ts : Fin n → Type}

/-- The constructor `Registry()`: every sparse set is `Sparse<Ts>{}`, with the
default capacities. -/
def init (w : Nat) {n : Nat} (Ts : Fin n → Type) : Registry w Ts :=
  { storage_ := fun i =>
      Sparse.init w (Ts i) Sparse.DEFAULT_DENSE_CAPACITY Sparse.DEFAULT_SPARSE_CAPACITY }

/-- Member `emplace<T>`. -/
def emplace [∀ i, Inhabited (Ts i)] (r : Registry w Ts) (T : Fin n) (entity_id : Nat) :
    Registry w Ts × Option Diag :=
  let q := (r.storage_ T).emplace_default entity_id
  ({ storage_ := Function.update r.storage_ T q.1 }, q.2)

/-! Member `get<T>` has no embedding: its body returns `*sparse.get(entity_id)`,
a `T*` taken out of the `std::optional<T*>` of `Sparse::get`, where the return
type is `T&`, so no instantiation of it compiles and there is no run of it to
describe. The same holds for `get_all<T>`, which calls it. -/

/-- Member `contains_type<T>`: the disjunction of `std::is_same<T, Ts>` over the
type list of the registry. -/
def contains_type (_r : Registry w Ts) (T : Fin n) : Bool :=
  (List.finRange n).any (fun i => decide (T = i))

end Registry

namespace Sparse

variable {w : Nat} {T : Type}

/-! ## Lemmas -/

theorem contains_eq_true_iff (s : Sparse w T) (e : Nat) :
    s.contains e = true ↔ ∃ i, s.sparse_[e]? = some i ∧ i ≠ SIZE_MAX w := by
  unfold contains
  by_cases h : e < s.sparse_.length
  · simp [h, List.getElem?_eq_getElem]
  · simp [h, List.getElem?_eq_none (Nat.le_of_not_lt h)]

theorem contains_eq_false_iff (s : Sparse w T) (e : Nat) :
    s.contains e = false ↔ (s.sparse_.length ≤ e ∨ s.sparse_[e]? = some (SIZE_MAX w)) := by
  unfold contains
  by_cases h : e < s.sparse_.length
  · simp [h, List.getElem?_eq_getElem, Nat.not_le.mpr h]
  · simp [h, Nat.le_of_not_lt h]

theorem contains_lt (s : Sparse w T) (e : Nat) (h : s.contains e = true) :
    e < s.sparse_.length := by
  obtain ⟨i, hi, _⟩ := (contains_eq_true_iff s e).mp h
  exact (List.getElem?_eq_some.mp hi).1

theorem Inv.nodup {s : Sparse w T} (h : Inv s) : s.reverse_.Nodup := by
  rw [List.nodup_iff_getElem?_ne_getElem?]
  intro i j hij hj heq
  have hj2 : s.reverse_[j]? = some s.reverse_[j] := List.getElem?_eq_getElem hj
  have h1 := h.bwd j _ hj2
  have h2 := h.bwd i _ (heq.trans hj2)
  rw [h1] at h2
  have := Option.some.inj h2
  omega

theorem Inv.mem_valid {s : Sparse w T} (h : Inv s) (x : Nat) (hx : x ∈ s.reverse_) :
    ∃ i, i < s.reverse_.length ∧ s.sparse_[x]? = some i := by
  obtain ⟨i, hi, rfl⟩ := List.getElem_of_mem hx
  exact ⟨i, hi, h.bwd i _ (List.getElem?_eq_getElem hi)⟩

/-- The positions of `reverse_` hold pairwise different valid ids, so there are
at most as many of them as sparse slots. -/
theorem Inv.count_le {s : Sparse w T} (h : Inv s) : s.reverse_.length ≤ s.sparse_.length := by
  have hsub : s.reverse_ ⊆ List.range s.sparse_.length := by
    intro x hx
    obtain ⟨i, _, h1⟩ := h.mem_valid x hx
    exact List.mem_range.mpr (List.getElem?_eq_some.mp h1).1
  simpa using (h.nodup.subperm hsub).length_le

/-- A valid id without a component is not in `reverse_`, which leaves room for
one more position. -/
theorem Inv.count_lt {s : Sparse w T} (h : Inv s) (e : Nat)
    (he : s.sparse_[e]? = some (SIZE_MAX w)) : s.reverse_.length < s.sparse_.length := by
  have hle := h.count_le
  have hsz := h.size
  have hnot : e ∉ s.reverse_ := by
    intro hx
    obtain ⟨i, hi, h1⟩ := h.mem_valid e hx
    rw [he] at h1
    have := Option.some.inj h1
    omega
  have hnd : (e :: s.reverse_).Nodup := List.nodup_cons.mpr ⟨hnot, h.nodup⟩
  have hsub : (e :: s.reverse_) ⊆ List.range s.sparse_.length := by
    intro x hx
    rcases List.mem_cons.mp hx with rfl | hx
    · exact List.mem_range.mpr (List.getElem?_eq_some.mp he).1
    · obtain ⟨i, _, h1⟩ := h.mem_valid x hx
      exact List.mem_range.mpr (List.getElem?_eq_some.mp h1).1
  have := (hnd.subperm hsub).length_le
  simp only [List.length_cons, List.length_range] at this
  omega

theorem Inv.dense_lt {s : Sparse w T} (h : Inv s) : s.dense_.length ≤ SIZE_MAX w := by
  have := h.count_le
  have := h.size
  have := h.len
  omega

theorem Inv.invariants {s : Sparse w T} (h : Inv s) :
    invariant1 s ∧ invariant2 s ∧ invariant3 s := by
  refine ⟨h.len, h.fwd, ?_⟩
  intro i hi
  have hi2 : i < s.reverse_.length := h.len ▸ hi
  refine ⟨s.reverse_[i], List.getElem?_eq_getElem hi2, ?_, ?_⟩
  · exact (List.getElem?_eq_some.mp (h.bwd i _ (List.getElem?_eq_getElem hi2))).1
  · exact h.bwd i _ (List.getElem?_eq_getElem hi2)

theorem Inv.init (dc sc : Nat) (hsc : sc < 2 ^ w) : Inv (Sparse.init w T dc sc) := by
  refine ⟨rfl, ?_, ?_, ?_, ?_⟩
  · intro e i hi hne
    simp only [Sparse.init, List.getElem?_replicate] at hi
    split at hi
    · exact absurd (Option.some.inj hi).symm hne
    · cases hi
  · intro i e hi
    simp [Sparse.init] at hi
  · simp only [Sparse.init, List.length_replicate, SIZE_MAX]
    omega
  · simp [Sparse.init]

/-- The state after a call of `insert` that passes both checks. -/
theorem insert_ok (s : Sparse w T) (e : Nat) (v : T) (hv : e < s.sparse_.length)
    (hc : s.contains e = false) :
    s.insert e v = ({ s with
      dense_ := s.dense_ ++ [v]
      sparse_ := s.sparse_.set e s.dense_.length
      reverse_ := s.reverse_ ++ [e] }, none) := by
  simp [insert, is_valid_entity_id, hv, hc]

theorem insert_invalid (s : Sparse w T) (e : Nat) (v : T) (hv : ¬ e < s.sparse_.length) :
    s.insert e v = (s, some .not_enough_capacity) := by
  simp [insert, is_valid_entity_id, hv]

theorem insert_duplicate (s : Sparse w T) (e : Nat) (v : T) (hc : s.contains e = true) :
    s.insert e v = (s, some .entity_already_has_component) := by
  simp [insert, is_valid_entity_id, contains_lt s e hc, hc]

theorem Inv.insert {s : Sparse w T} (h : Inv s) (e : Nat) (v : T) : Inv (s.insert e v).1 := by
  by_cases hv : e < s.sparse_.length
  swap
  · rw [insert_invalid s e v hv]; exact h
  cases hc : s.contains e
  swap
  · rw [insert_duplicate s e v hc]; exact h
  rw [insert_ok s e v hv hc]
  have hM : s.sparse_[e]? = some (SIZE_MAX w) := by
    rcases (contains_eq_false_iff s e).mp hc with h1 | h1
    · omega
    · exact h1
  have hcnt := h.count_le
  have hlen := h.len
  have hsize := h.size
  -- the id is not in `reverse_`, so one more position still fits
  have hlt : s.dense_.length < SIZE_MAX w := by
    have := h.count_lt e hM
    omega
  refine ⟨by simp [hlen], ?_, ?_, by simpa using hsize, by simpa using h.cap⟩
  · intro e' i hi hne
    simp only [List.getElem?_set] at hi
    by_cases hee : e = e'
    · subst hee
      simp only [if_true, hv] at hi
      have := Option.some.inj hi
      subst this
      simp [hlen]
    · simp only [hee, if_false] at hi
      obtain ⟨h1, h2⟩ := h.fwd e' i hi hne
      refine ⟨by simp; omega, ?_⟩
      rw [List.getElem?_append_left (by omega)]
      exact h2
  · intro i e' hi
    simp only [List.getElem?_append] at hi
    split at hi
    · next hlt2 =>
      have h1 := h.bwd i e' hi
      have hee : e ≠ e' := by
        rintro rfl
        rw [hM] at h1
        have := Option.some.inj h1
        omega
      simp only [List.getElem?_set, hee, if_false]
      exact h1
    · next hge =>
      have : i - s.reverse_.length = 0 := by
        by_contra hcon
        have : [e][i - s.reverse_.length]? = none := by
          apply List.getElem?_eq_none
          simp; omega
        rw [this] at hi; cases hi
      rw [this] at hi
      simp at hi
      subst hi
      have : i = s.dense_.length := by omega
      subst this
      simp [List.getElem?_set, hv]

theorem emplace_default_eq_insert [Inhabited T] (s : Sparse w T) (e : Nat) :
    s.emplace_default e = s.insert e default := rfl

theorem size_sub_one (w n : Nat) (h1 : 1 ≤ n) (h2 : n < 2 ^ w) : size_sub w n 1 = n - 1 := by
  unfold size_sub
  have h3 : 1 % 2 ^ w = 1 := Nat.mod_eq_of_lt (by omega)
  rw [h3]
  have h4 : n + (2 ^ w - 1) = (n - 1) + 2 ^ w := by omega
  rw [h4, Nat.add_mod_right]
  exact Nat.mod_eq_of_lt (by omega)

theorem pow_pos_w (w : Nat) : 0 < 2 ^ w := Nat.pow_pos (by decide)

/-- The state after a call of `remove_swap` for an id that has a component, in a
state that satisfies the invariants: no subscript is out of bounds. -/
theorem remove_swap_ok {s : Sparse w T} (h : Inv s) (e i : Nat)
    (hi : s.sparse_[e]? = some i) (hne : i ≠ SIZE_MAX w) :
    ∃ (L : Nat) (a b : T), s.reverse_[s.dense_.length - 1]? = some L ∧
      s.dense_[i]? = some a ∧ s.dense_[s.dense_.length - 1]? = some b ∧
      s.remove_swap e = .ok ({ s with
        sparse_ := (s.sparse_.set L i).set e (SIZE_MAX w)
        reverse_ := ((s.reverse_.set i L).set (s.dense_.length - 1) e).dropLast
        dense_ := ((s.dense_.set i b).set (s.dense_.length - 1) a).dropLast }, none) := by
  obtain ⟨hin, hri⟩ := h.fwd e i hi hne
  have hlen := h.len
  have hpow := pow_pos_w w
  have hn : s.dense_.length < 2 ^ w := by
    have := h.dense_lt
    unfold SIZE_MAX at this
    omega
  have hvalid : e < s.sparse_.length := (List.getElem?_eq_some.mp hi).1
  have hcont : s.contains e = true := (contains_eq_true_iff s e).mpr ⟨i, hi, hne⟩
  have hlast : s.dense_.length - 1 < s.reverse_.length := by omega
  have hL : s.reverse_[s.dense_.length - 1]? = some s.reverse_[s.dense_.length - 1] :=
    List.getElem?_eq_getElem hlast
  have hLs := h.bwd _ _ hL
  have hLlt : s.reverse_[s.dense_.length - 1] < s.sparse_.length :=
    (List.getElem?_eq_some.mp hLs).1
  have ha : s.dense_[i]? = some s.dense_[i] := List.getElem?_eq_getElem hin
  have hb : s.dense_[s.dense_.length - 1]? = some s.dense_[s.dense_.length - 1] :=
    List.getElem?_eq_getElem (by omega)
  refine ⟨_, _, _, hL, ha, hb, ?_⟩
  have hsub := size_sub_one w s.dense_.length (by omega) hn
  simp [remove_swap, is_valid_entity_id, hvalid, hcont, vec_read, hi, hsub, hL, vec_swap, ha,
    hb, hri, vec_write, hLlt, bind, Except.bind, pure, Except.pure]

/-- Reading the list left by swapping position `i` with the last position `n1`
and popping the last element. -/
theorem swap_pop_getElem? {α : Type} (xs : List α) (i n1 : Nat) (a b : α)
    (hn : n1 + 1 = xs.length) (j : Nat) :
    (((xs.set i b).set n1 a).dropLast)[j]? =
      if j < n1 then (if j = i then some b else xs[j]?) else none := by
  rw [List.getElem?_dropLast]
  simp only [List.length_set]
  have h1 : xs.length - 1 = n1 := by omega
  rw [h1]
  by_cases hj : j < n1
  · simp only [hj, if_true]
    rw [List.getElem?_set_ne (by omega), List.getElem?_set]
    by_cases hji : j = i
    · subst hji
      simp only [if_true]
      rw [if_pos (by omega)]
    · rw [if_neg (fun h => hji h.symm), if_neg hji]
  · simp only [hj, if_false]

theorem remove_swap_invalid (s : Sparse w T) (e : Nat) (hv : ¬ e < s.sparse_.length) :
    s.remove_swap e = .ok (s, some .not_enough_capacity) := by
  simp [remove_swap, is_valid_entity_id, hv]

theorem remove_swap_absent (s : Sparse w T) (e : Nat) (hv : e < s.sparse_.length)
    (hc : s.contains e = false) :
    s.remove_swap e = .ok (s, some .entity_has_no_component) := by
  simp [remove_swap, is_valid_entity_id, hv, hc]

/-- The invariants of the state that `remove_swap_ok` describes. -/
theorem Inv.removed {s : Sparse w T} (h : Inv s) (e i L : Nat) (a b : T)
    (hi : s.sparse_[e]? = some i) (hne : i ≠ SIZE_MAX w)
    (hL : s.reverse_[s.dense_.length - 1]? = some L) :
    Inv ({ s with
        sparse_ := (s.sparse_.set L i).set e (SIZE_MAX w)
        reverse_ := ((s.reverse_.set i L).set (s.dense_.length - 1) e).dropLast
        dense_ := ((s.dense_.set i b).set (s.dense_.length - 1) a).dropLast } : Sparse w T) := by
  obtain ⟨hin, hri⟩ := h.fwd e i hi hne
  have hlen := h.len
  have hLs := h.bwd _ _ hL
  have hLlt : L < s.sparse_.length := (List.getElem?_eq_some.mp hLs).1
  have hvalid : e < s.sparse_.length := (List.getElem?_eq_some.mp hi).1
  have hn1 : s.dense_.length - 1 + 1 = s.reverse_.length := by omega
  have hdlt := h.dense_lt
  refine ⟨by simp [hlen], ?_, ?_, by simpa using h.size, by simpa using h.cap⟩
  · intro e' k hk hkne
    simp only [List.getElem?_set, List.length_set] at hk
    by_cases he : e = e'
    · subst he
      simp only [if_true, hvalid] at hk
      exact absurd (Option.some.inj hk).symm hkne
    · simp only [he, if_false] at hk
      by_cases hLe : L = e'
      · subst hLe
        simp only [if_true, hLlt] at hk
        have hki := Option.some.inj hk
        subst hki
        have hilt : i < s.dense_.length - 1 := by
          by_contra hcon
          have : i = s.dense_.length - 1 := by omega
          rw [← this, hri] at hL
          exact he (Option.some.inj hL)
        refine ⟨by simp; omega, ?_⟩
        rw [swap_pop_getElem? _ _ _ _ _ hn1]
        simp [hilt]
      · simp only [hLe, if_false] at hk
        obtain ⟨hkn, hrk⟩ := h.fwd e' k hk hkne
        have hk1 : k ≠ s.dense_.length - 1 := by
          rintro rfl
          rw [hrk] at hL
          exact hLe (Option.some.inj hL).symm
        have hk2 : k ≠ i := by
          rintro rfl
          rw [hrk] at hri
          exact he (Option.some.inj hri).symm
        refine ⟨by simp; omega, ?_⟩
        rw [swap_pop_getElem? _ _ _ _ _ hn1]
        simp [hk2, hrk]
        omega
  · intro j e' hj
    rw [swap_pop_getElem? _ _ _ _ _ hn1] at hj
    by_cases hjn : j < s.dense_.length - 1
    swap
    · simp [hjn] at hj
    simp only [hjn, if_true] at hj
    by_cases hji : j = i
    · subst hji
      simp only [if_true] at hj
      have := Option.some.inj hj
      subst this
      have heL : e ≠ L := by
        rintro rfl
        rw [hi] at hLs
        have := Option.some.inj hLs
        omega
      rw [List.getElem?_set_ne heL, List.getElem?_set]
      simp [hLlt]
    · simp only [hji, if_false] at hj
      have hsj := h.bwd j e' hj
      have he1 : e ≠ e' := by
        rintro rfl
        rw [hi] at hsj
        exact hji (Option.some.inj hsj).symm
      have he2 : L ≠ e' := by
        rintro rfl
        rw [hLs] at hsj
        have := Option.some.inj hsj
        omega
      rw [List.getElem?_set_ne he1, List.getElem?_set_ne he2]
      exact hsj

/-- In a state that satisfies the invariants `remove_swap` returns, and the
state it returns satisfies them. -/
theorem Inv.remove_swap {s : Sparse w T} (h : Inv s) (e : Nat) :
    ∃ r, s.remove_swap e = .ok r ∧ Inv r.1 := by
  by_cases hv : e < s.sparse_.length
  swap
  · exact ⟨_, remove_swap_invalid s e hv, h⟩
  cases hc : s.contains e
  · exact ⟨_, remove_swap_absent s e hv hc, h⟩
  · obtain ⟨i, hi, hne⟩ := (contains_eq_true_iff s e).mp hc
    obtain ⟨L, a, b, hL, _, _, hr⟩ := remove_swap_ok h e i hi hne
    exact ⟨_, hr, h.removed e i L a b hi hne hL⟩

theorem Inv.reserve {s : Sparse w T} (h : Inv s) (n : Nat) : Inv (s.reserve n) := by
  unfold Sparse.reserve
  split
  · rename_i hlt
    exact ⟨h.len, h.fwd, h.bwd, h.size, Nat.le_trans h.cap (Nat.le_of_lt hlt)⟩
  · exact h

theorem Inv.emplace_default [Inhabited T] {s : Sparse w T} (h : Inv s) (e : Nat) :
    Inv (s.emplace_default e).1 := h.insert e default

theorem Inv.batch_insert {s : Sparse w T} (h : Inv s) (e : Nat) (ids : List Nat) (v : T) :
    Inv (s.batch_insert e ids v).1 := by
  induction ids generalizing s e with
  | nil => exact h.insert e v
  | cons next rest ih => exact ih (h.insert e v) next

theorem Inv.batch_emplace [Inhabited T] {s : Sparse w T} (h : Inv s) (e : Nat)
    (ids : List Nat) : Inv (s.batch_emplace e ids).1 := by
  induction ids generalizing s e with
  | nil => exact h.emplace_default e
  | cons next rest ih => exact ih (h.emplace_default e) next

theorem Inv.batch_remove_swap {s : Sparse w T} (h : Inv s) (e : Nat) (ids : List Nat) :
    ∃ r, s.batch_remove_swap e ids = .ok r ∧ Inv r.1 := by
  induction ids generalizing s e with
  | nil =>
    obtain ⟨r, hr, hinv⟩ := h.remove_swap e
    exact ⟨(r.1, [r.2]), by simp [Sparse.batch_remove_swap, hr, bind, Except.bind, pure,
      Except.pure], hinv⟩
  | cons next rest ih =>
    obtain ⟨r, hr, hinv⟩ := h.remove_swap e
    obtain ⟨q, hq, hinv2⟩ := ih hinv next
    exact ⟨(q.1, r.2 :: q.2), by simp [Sparse.batch_remove_swap, hr, hq, bind, Except.bind,
      pure, Except.pure], hinv2⟩

theorem Reachable.inv {s : Sparse w T} (h : Reachable s) : Inv s := by
  induction h with
  | init dc sc hd hs => exact Inv.init dc sc hs
  | insert e v _ ih => exact ih.insert e v
  | emplace_default e _ ih => exact ih.emplace_default e
  | remove_swap e _ hr ih =>
    obtain ⟨r', hr', hinv⟩ := ih.remove_swap e
    rw [hr] at hr'
    cases hr'
    exact hinv
  | reserve n _ ih => exact ih.reserve n
  | batch_insert e ids v _ ih => exact ih.batch_insert e ids v
  | batch_emplace e ids _ ih => exact ih.batch_emplace e ids
  | batch_remove_swap e ids _ hr ih =>
    obtain ⟨r', hr', hinv⟩ := ih.batch_remove_swap e ids
    rw [hr] at hr'
    cases hr'
    exact hinv

theorem get_of_absent (s : Sparse w T) (e : Nat) (hc : s.contains e = false) :
    s.get e = .ok none := by
  unfold get
  by_cases hv : e < s.sparse_.length
  · rcases (contains_eq_false_iff s e).mp hc with h1 | h1
    · omega
    · have := (List.getElem?_eq_some.mp h1).2
      simp [hv, this]
  · simp [hv]

theorem get_of_present {s : Sparse w T} (h : Inv s) (e i : Nat)
    (hi : s.sparse_[e]? = some i) (hne : i ≠ SIZE_MAX w) : s.get e = .ok (some i) := by
  obtain ⟨hv, rfl⟩ := List.getElem?_eq_some.mp hi
  have hlt := (h.fwd e _ hi hne).1
  simp [get, hv, hne, hlt]

theorem get_component_eq_lookup {s : Sparse w T} (h : Inv s) (e : Nat) :
    s.get_component e = .ok (s.lookup e) := by
  cases hc : s.contains e
  · have hl : s.lookup e = none := by
      unfold lookup
      rcases (contains_eq_false_iff s e).mp hc with h1 | h1
      · rw [List.getElem?_eq_none h1]
      · rw [h1]; simp
    simp [get_component, get_of_absent s e hc, hl]
  · obtain ⟨i, hi, hne⟩ := (contains_eq_true_iff s e).mp hc
    simp [get_component, get_of_present h e i hi hne, lookup, hi, hne, deref]

theorem contains_eq_lookup {s : Sparse w T} (h : Inv s) (e : Nat) :
    s.contains e = (s.lookup e).isSome := by
  cases hc : s.contains e
  · symm
    unfold lookup
    rcases (contains_eq_false_iff s e).mp hc with h1 | h1
    · rw [List.getElem?_eq_none h1]; rfl
    · rw [h1]; simp
  · obtain ⟨i, hi, hne⟩ := (contains_eq_true_iff s e).mp hc
    have hlt := (h.fwd e i hi hne).1
    simp [lookup, hi, hne, List.getElem?_eq_getElem hlt]

/-- A successful `insert` stores the component for its id and keeps what every
other id has. -/
theorem lookup_insert_ok {s : Sparse w T} (h : Inv s) (e : Nat) (v : T)
    (hv : e < s.sparse_.length) (hc : s.contains e = false) (e' : Nat) :
    (s.insert e v).1.lookup e' = if e' = e then some v else s.lookup e' := by
  rw [insert_ok s e v hv hc]
  have hM : s.sparse_[e]? = some (SIZE_MAX w) := by
    rcases (contains_eq_false_iff s e).mp hc with h1 | h1
    · omega
    · exact h1
  have hlt : s.dense_.length < SIZE_MAX w := by
    have := h.count_lt e hM
    have := h.size
    have := h.len
    omega
  unfold lookup
  simp only [List.getElem?_set]
  by_cases hee : e' = e
  · subst hee
    simp [hv, Nat.ne_of_lt hlt]
  · have hee2 : ¬ e = e' := fun h => hee h.symm
    simp only [hee, hee2, if_false]
    cases hk : s.sparse_[e']? with
    | none => rfl
    | some k =>
      simp only
      by_cases hkM : k = SIZE_MAX w
      · simp [hkM]
      · have := (h.fwd e' k hk hkM).1
        simp only [hkM, if_false]
        rw [List.getElem?_append_left this]

/-- A successful `remove_swap` leaves its id without a component and keeps what
every other id has. -/
theorem lookup_removed {s : Sparse w T} (h : Inv s) (e i L : Nat) (a b : T)
    (hi : s.sparse_[e]? = some i) (hne : i ≠ SIZE_MAX w)
    (hL : s.reverse_[s.dense_.length - 1]? = some L)
    (hb : s.dense_[s.dense_.length - 1]? = some b) (e' : Nat) :
    ({ s with
        sparse_ := (s.sparse_.set L i).set e (SIZE_MAX w)
        reverse_ := ((s.reverse_.set i L).set (s.dense_.length - 1) e).dropLast
        dense_ := ((s.dense_.set i b).set (s.dense_.length - 1) a).dropLast } :
      Sparse w T).lookup e' = if e' = e then none else s.lookup e' := by
  obtain ⟨hin, hri⟩ := h.fwd e i hi hne
  have hLs := h.bwd _ _ hL
  have hLlt : L < s.sparse_.length := (List.getElem?_eq_some.mp hLs).1
  have hvalid : e < s.sparse_.length := (List.getElem?_eq_some.mp hi).1
  have hn1 : s.dense_.length - 1 + 1 = s.dense_.length := by omega
  have hdlt := h.dense_lt
  unfold lookup
  simp only [List.getElem?_set, List.length_set]
  by_cases hee : e' = e
  · subst hee
    simp [hvalid]
  · have hee2 : ¬ e = e' := fun h => hee h.symm
    simp only [hee, hee2, if_false]
    by_cases hLe : L = e'
    · subst hLe
      have hilt : i < s.dense_.length - 1 := by
        by_contra hcon
        have : i = s.dense_.length - 1 := by omega
        rw [← this, hri] at hL
        exact hee (Option.some.inj hL).symm
      simp only [if_true, hLlt, hne, if_false, hLs]
      rw [swap_pop_getElem? _ _ _ _ _ hn1]
      have : s.dense_.length - 1 ≠ SIZE_MAX w := by omega
      simp [hilt, this, hb]
    · simp only [hLe, if_false]
      cases hk : s.sparse_[e']? with
      | none => rfl
      | some k =>
        simp only
        by_cases hkM : k = SIZE_MAX w
        · simp [hkM]
        · obtain ⟨hkn, hrk⟩ := h.fwd e' k hk hkM
          have hk1 : k ≠ s.dense_.length - 1 := by
            rintro rfl
            rw [hrk] at hL
            exact hLe (Option.some.inj hL).symm
          have hk2 : k ≠ i := by
            rintro rfl
            rw [hrk] at hri
            exact hee (Option.some.inj hri)
          simp only [hkM, if_false]
          rw [swap_pop_getElem? _ _ _ _ _ hn1]
          have : k < s.dense_.length - 1 := by omega
          simp [this, hk2]

theorem insert_cases (s : Sparse w T) (e : Nat) (v : T) :
    (e < s.sparse_.length ∧ s.contains e = false ∧ (s.insert e v).2 = none) ∨
    ((s.insert e v).1 = s ∧ (s.insert e v).2 ≠ none ∧
      ¬ (e < s.sparse_.length ∧ s.contains e = false)) := by
  by_cases hv : e < s.sparse_.length
  swap
  · right; rw [insert_invalid s e v hv]; simp [hv]
  cases hc : s.contains e
  · left; rw [insert_ok s e v hv hc]; simp [hv]
  · right; rw [insert_duplicate s e v hc]; simp

theorem lookup_reserve (s : Sparse w T) (n e : Nat) : (s.reserve n).lookup e = s.lookup e := by
  unfold Sparse.reserve
  split <;> rfl

theorem Stores.sim {m : Nat → Option T} {s : Sparse w T} (h : Stores m s) :
    Inv s ∧ ∀ e, s.lookup e = m e := by
  induction h with
  | init dc sc hd hs =>
    refine ⟨Inv.init dc sc hs, fun e => ?_⟩
    simp only [lookup, Sparse.init, List.getElem?_replicate]
    split <;> simp_all
  | @insert m s e v _ ih =>
    refine ⟨ih.1.insert e v, fun e' => ?_⟩
    rcases insert_cases s e v with ⟨hv, hc, hd⟩ | ⟨hs, hd, _⟩
    · rw [lookup_insert_ok ih.1 e v hv hc, if_pos hd]
      by_cases hee : e' = e
      · subst hee; simp
      · simp [hee, ih.2]
    · rw [hs, if_neg hd]; exact ih.2 e'
  | @emplace_default _ m s e _ ih =>
    refine ⟨ih.1.emplace_default e, fun e' => ?_⟩
    simp only [emplace_default_eq_insert]
    rcases insert_cases s e default with ⟨hv, hc, hd⟩ | ⟨hs, hd, _⟩
    · rw [lookup_insert_ok ih.1 e default hv hc, if_pos hd]
      by_cases hee : e' = e
      · subst hee; simp
      · simp [hee, ih.2]
    · rw [hs, if_neg hd]; exact ih.2 e'
  | @remove_swap m s e r _ hr ih =>
    have hinv : Inv r.1 := by
      obtain ⟨r', hr', hinv⟩ := ih.1.remove_swap e
      rw [hr] at hr'; cases hr'; exact hinv
    refine ⟨hinv, fun e' => ?_⟩
    by_cases hv : e < s.sparse_.length
    swap
    · rw [remove_swap_invalid s e hv] at hr
      cases hr
      simpa using ih.2 e'
    cases hc : s.contains e
    · rw [remove_swap_absent s e hv hc] at hr
      cases hr
      simpa using ih.2 e'
    · obtain ⟨i, hi, hne⟩ := (contains_eq_true_iff s e).mp hc
      obtain ⟨L, a, b, hL, _, hb, hr2⟩ := remove_swap_ok ih.1 e i hi hne
      rw [hr] at hr2
      cases hr2
      rw [lookup_removed ih.1 e i L a b hi hne hL hb]
      by_cases hee : e' = e
      · subst hee; simp
      · simp [hee, ih.2]
  | reserve n _ ih =>
    exact ⟨ih.1.reserve n, fun e => by rw [lookup_reserve]; exact ih.2 e⟩

theorem Stores.reachable {m : Nat → Option T} {s : Sparse w T} (h : Stores m s) :
    Reachable s := by
  induction h with
  | init dc sc hd hs => exact .init dc sc hd hs
  | insert e v _ ih => exact .insert e v ih
  | emplace_default e _ ih => exact .emplace_default e ih
  | remove_swap e _ hr ih => exact .remove_swap e ih hr
  | reserve n _ ih => exact .reserve n ih

theorem Stores.of_batch_insert {m : Nat → Option T} {s : Sparse w T} (h : Stores m s) (e : Nat)
    (ids : List Nat) (v : T) : ∃ m', Stores m' (s.batch_insert e ids v).1 := by
  induction ids generalizing m s e with
  | nil => exact ⟨_, h.insert e v⟩
  | cons next rest ih => exact ih (h.insert e v) next

theorem Stores.of_batch_emplace [Inhabited T] {m : Nat → Option T} {s : Sparse w T}
    (h : Stores m s) (e : Nat) (ids : List Nat) : ∃ m', Stores m' (s.batch_emplace e ids).1 := by
  induction ids generalizing m s e with
  | nil => exact ⟨_, h.emplace_default e⟩
  | cons next rest ih => exact ih (h.emplace_default e) next

theorem Stores.of_batch_remove_swap {m : Nat → Option T} {s : Sparse w T} (h : Stores m s)
    (e : Nat) (ids : List Nat) (r : Sparse w T × List (Option Diag))
    (hr : s.batch_remove_swap e ids = .ok r) : ∃ m', Stores m' r.1 := by
  induction ids generalizing m s e r with
  | nil =>
    obtain ⟨q, hq, _⟩ := h.sim.1.remove_swap e
    simp [Sparse.batch_remove_swap, hq, bind, Except.bind, pure, Except.pure] at hr
    subst hr
    exact ⟨_, h.remove_swap e hq⟩
  | cons next rest ih =>
    obtain ⟨q, hq, _⟩ := h.sim.1.remove_swap e
    simp only [Sparse.batch_remove_swap, hq, bind, Except.bind, pure, Except.pure] at hr
    cases hq2 : q.1.batch_remove_swap next rest with
    | error f => simp [hq2] at hr
    | ok p =>
      simp only [hq2] at hr
      cases hr
      exact ih (h.remove_swap e hq) next p hq2

theorem Reachable.stores {s : Sparse w T} (h : Reachable s) : ∃ m, Stores m s := by
  induction h with
  | init dc sc hd hs => exact ⟨_, .init dc sc hd hs⟩
  | insert e v _ ih => obtain ⟨m, hm⟩ := ih; exact ⟨_, hm.insert e v⟩
  | emplace_default e _ ih => obtain ⟨m, hm⟩ := ih; exact ⟨_, hm.emplace_default e⟩
  | remove_swap e _ hr ih => obtain ⟨m, hm⟩ := ih; exact ⟨_, hm.remove_swap e hr⟩
  | reserve n _ ih => obtain ⟨m, hm⟩ := ih; exact ⟨_, hm.reserve n⟩
  | batch_insert e ids v _ ih => obtain ⟨m, hm⟩ := ih; exact hm.of_batch_insert e ids v
  | batch_emplace e ids _ ih => obtain ⟨m, hm⟩ := ih; exact hm.of_batch_emplace e ids
  | batch_remove_swap e ids _ hr ih =>
    obtain ⟨m, hm⟩ := ih; exact hm.of_batch_remove_swap e ids _ hr

theorem lookup_some {s : Sparse w T} (h : Inv s) (e : Nat) (v : T)
    (hl : s.lookup e = some v) :
    s.contains e = true ∧ ∃ p, s.sparse_[e]? = some p ∧ p ≠ SIZE_MAX w ∧
      s.get e = .ok (some p) ∧ s.deref p = some v := by
  unfold lookup at hl
  cases hk : s.sparse_[e]? with
  | none => simp [hk] at hl
  | some i =>
    simp only [hk] at hl
    by_cases hM : i = SIZE_MAX w
    · simp [hM] at hl
    · simp only [hM, if_false] at hl
      exact ⟨(contains_eq_true_iff s e).mpr ⟨i, hk, hM⟩, i, rfl, hM,
        get_of_present h e i hk hM, hl⟩

theorem contains_init (dc sc e : Nat) : (Sparse.init w T dc sc).contains e = false := by
  rw [contains_eq_false_iff]
  simp only [Sparse.init, List.length_replicate, List.getElem?_replicate]
  by_cases h : e < sc
  · right; simp [h]
  · left; omega

theorem insert_length (s : Sparse w T) (e : Nat) (v : T) :
    (s.insert e v).1.sparse_.length = s.sparse_.length := by
  rcases insert_cases s e v with ⟨hv, hc, _⟩ | ⟨hs, _, _⟩
  · rw [insert_ok s e v hv hc]; simp
  · rw [hs]

theorem insert_count_ok (s : Sparse w T) (e : Nat) (v : T) (hv : e < s.sparse_.length)
    (hc : s.contains e = false) : (s.insert e v).1.count = s.count + 1 := by
  rw [insert_ok s e v hv hc]; simp [count]

/-- What a successful `remove_swap` does to every lookup. -/
theorem remove_swap_present {s : Sparse w T} (h : Inv s) (e : Nat) (hc : s.contains e = true) :
    ∃ r, s.remove_swap e = .ok (r, none) ∧ Inv r ∧ r.count + 1 = s.count ∧
      r.sparse_.length = s.sparse_.length ∧
      ∀ e', r.lookup e' = if e' = e then none else s.lookup e' := by
  obtain ⟨i, hi, hne⟩ := (contains_eq_true_iff s e).mp hc
  obtain ⟨L, a, b, hL, _, hb, hr⟩ := remove_swap_ok h e i hi hne
  have hin := (h.fwd e i hi hne).1
  refine ⟨_, hr, h.removed e i L a b hi hne hL, ?_, ?_, lookup_removed h e i L a b hi hne hL hb⟩
  · simp only [count, List.length_dropLast, List.length_set]; omega
  · simp

/-- A fold that threads the state and appends to a log: the log it starts with
stays in front of what the fold appends. -/
theorem foldl_log (g : Sparse w T → Nat → Sparse w T × Option Diag) (ids : List Nat)
    (s : Sparse w T) (log : List (Option Diag)) :
    ids.foldl (fun acc id => ((g acc.1 id).1, acc.2 ++ [(g acc.1 id).2])) (s, log) =
      ((ids.foldl (fun acc id => ((g acc.1 id).1, acc.2 ++ [(g acc.1 id).2])) (s, [])).1,
        log ++
        (ids.foldl (fun acc id => ((g acc.1 id).1, acc.2 ++ [(g acc.1 id).2])) (s, [])).2) := by
  induction ids generalizing s log with
  | nil => simp
  | cons a l ih =>
    simp only [List.foldl_cons]
    rw [ih (g s a).1 (log ++ [(g s a).2]), ih (g s a).1 ([] ++ [(g s a).2])]
    simp

theorem batch_insert_eq_each (s : Sparse w T) (e : Nat) (ids : List Nat) (v : T) :
    s.batch_insert e ids v = s.insert_each (e :: ids) v := by
  induction ids generalizing s e with
  | nil => simp [batch_insert, insert_each]
  | cons next rest ih =>
    rw [batch_insert, ih]
    simp only [insert_each, List.foldl_cons]
    rw [foldl_log (fun t id => t.insert id v) rest _ ([] ++ [(s.insert e v).2] ++ _)]
    rw [foldl_log (fun t id => t.insert id v) rest _ ([] ++ [_])]
    simp

theorem batch_emplace_eq_each [Inhabited T] (s : Sparse w T) (e : Nat) (ids : List Nat) :
    s.batch_emplace e ids = s.emplace_each (e :: ids) := by
  induction ids generalizing s e with
  | nil => simp [batch_emplace, emplace_each]
  | cons next rest ih =>
    rw [batch_emplace, ih]
    simp only [emplace_each, List.foldl_cons]
    rw [foldl_log (fun t id => t.emplace_default id) rest _
      ([] ++ [(s.emplace_default e).2] ++ _)]
    rw [foldl_log (fun t id => t.emplace_default id) rest _ ([] ++ [_])]
    simp

theorem foldlM_log (ids : List Nat) (s : Sparse w T) (log : List (Option Diag)) :
    ids.foldlM (fun (acc : Sparse w T × List (Option Diag)) id =>
        match acc.1.remove_swap id with
        | .ok r => Except.ok (r.1, acc.2 ++ [r.2])
        | .error f => Except.error f) (s, log) =
      match remove_swap_each s ids with
      | .ok q => .ok (q.1, log ++ q.2)
      | .error f => .error f := by
  induction ids generalizing s log with
  | nil => simp [remove_swap_each, pure, Except.pure]
  | cons a l ih =>
    simp only [remove_swap_each, List.foldlM_cons, bind, Except.bind]
    cases hr : s.remove_swap a with
    | error f => simp
    | ok r =>
      simp only
      rw [ih r.1 (log ++ [r.2]), ih r.1 ([] ++ [r.2])]
      cases remove_swap_each r.1 l with
      | error f => simp
      | ok q => simp

theorem batch_remove_swap_eq_each (s : Sparse w T) (e : Nat) (ids : List Nat) :
    s.batch_remove_swap e ids = s.remove_swap_each (e :: ids) := by
  induction ids generalizing s e with
  | nil =>
    simp only [batch_remove_swap, remove_swap_each, List.foldlM_cons, List.foldlM_nil, bind,
      Except.bind, pure, Except.pure]
    cases s.remove_swap e <;> simp
  | cons next rest ih =>
    rw [batch_remove_swap]
    simp only [ih]
    conv => rhs; simp only [remove_swap_each, List.foldlM_cons, bind, Except.bind]
    cases hr : s.remove_swap e with
    | error f => simp [bind, Except.bind]
    | ok r =>
      simp only [bind, Except.bind]
      have := foldlM_log (next :: rest) r.1 ([] ++ [r.2])
      simp only [List.foldlM_cons, bind, Except.bind] at this
      rw [this]
      cases remove_swap_each r.1 (next :: rest) with
      | error f => simp
      | ok q => simp [pure, Except.pure]

theorem remove_swap_diag (s : Sparse w T) (e : Nat) (r : Sparse w T × Option Diag)
    (hr : s.remove_swap e = .ok r) (hd : r.2 ≠ none) : r.1 = s := by
  by_cases hv : e < s.sparse_.length
  swap
  · rw [remove_swap_invalid s e hv] at hr; cases hr; rfl
  cases hc : s.contains e
  · rw [remove_swap_absent s e hv hc] at hr; cases hr; rfl
  · exfalso
    apply hd
    simp only [remove_swap, is_valid_entity_id, hv, hc, bind, Except.bind, pure, Except.pure,
      decide_True, Bool.not_true, Bool.false_eq_true, if_false] at hr
    repeat' split at hr
    all_goals first
      | (cases hr; rfl)
      | cases hr

theorem get_mut_eq (s : Sparse w T) (e : Nat) :
    s.get_mut e = (s.get e).map (fun p => (p, s)) := by
  unfold get_mut get
  repeat' split
  all_goals rfl

/-! ## Counting and iteration -/

theorem mem_reverse_iff {s : Sparse w T} (h : Inv s) (x : Nat) :
    x ∈ s.reverse_ ↔ x ∈ s.present_ids := by
  unfold present_ids
  rw [List.mem_filter, List.mem_range]
  constructor
  · intro hx
    obtain ⟨i, hi, h1⟩ := h.mem_valid x hx
    have hne : i ≠ SIZE_MAX w := by
      have := h.count_le
      have := h.size
      omega
    exact ⟨(List.getElem?_eq_some.mp h1).1, (contains_eq_true_iff s x).mpr ⟨i, h1, hne⟩⟩
  · rintro ⟨_, hc⟩
    obtain ⟨i, hi, hne⟩ := (contains_eq_true_iff s x).mp hc
    exact List.getElem?_mem (h.fwd x i hi hne).2

theorem present_ids_nodup (s : Sparse w T) : s.present_ids.Nodup :=
  (List.nodup_range _).filter _

/-- The ids in `reverse_` are the ids that have a component, each once. -/
theorem reverse_perm {s : Sparse w T} (h : Inv s) : s.reverse_.Perm s.present_ids :=
  (List.perm_ext_iff_of_nodup h.nodup (present_ids_nodup s)).mpr (mem_reverse_iff h)

theorem count_eq_present {s : Sparse w T} (h : Inv s) : s.count = s.present_ids.length := by
  rw [← (reverse_perm h).length_eq]
  exact h.len

/-- Position by position, `dense_` holds the component of the id in `reverse_`. -/
theorem dense_eq_lookup {s : Sparse w T} (h : Inv s) :
    s.dense_.map some = s.reverse_.map s.lookup := by
  apply List.ext_getElem?
  intro i
  rw [List.getElem?_map, List.getElem?_map]
  by_cases hi : i < s.dense_.length
  · have hi2 : i < s.reverse_.length := h.len ▸ hi
    have hne : i ≠ SIZE_MAX w := by
      have := h.dense_lt
      omega
    have hs := h.bwd i _ (List.getElem?_eq_getElem hi2)
    rw [List.getElem?_eq_getElem hi, List.getElem?_eq_getElem hi2]
    simp [lookup, hs, hne, List.getElem?_eq_getElem hi]
  · have hi2 : ¬ i < s.reverse_.length := h.len ▸ hi
    rw [List.getElem?_eq_none (Nat.le_of_not_lt hi), List.getElem?_eq_none (Nat.le_of_not_lt hi2)]
    rfl

theorem iterate_perm {s : Sparse w T} (h : Inv s) :
    (s.iterate.map (fun c => (Except.ok (some c) : Except Fault (Option T)))).Perm
      (s.present_ids.map s.get_component) := by
  have h1 : s.present_ids.map s.get_component =
      (s.present_ids.map s.lookup).map (fun o => (Except.ok o : Except Fault (Option T))) := by
    rw [List.map_map]
    apply List.map_congr_left
    intro e _
    exact get_component_eq_lookup h e
  have h2 : s.iterate.map (fun c => (Except.ok (some c) : Except Fault (Option T))) =
      (s.reverse_.map s.lookup).map (fun o => (Except.ok o : Except Fault (Option T))) := by
    rw [← dense_eq_lookup h, List.map_map]
    rfl
  rw [h1, h2]
  exact ((reverse_perm h).map _).map _

/-! ## Reserve, and the checked variants -/

theorem reserve_arrays (s : Sparse w T) (n : Nat) :
    (s.reserve n).sparse_ = s.sparse_ ∧ (s.reserve n).dense_ = s.dense_ ∧
    (s.reserve n).reverse_ = s.reverse_ := by
  unfold Sparse.reserve
  split <;> exact ⟨rfl, rfl, rfl⟩

theorem reserve_contains (s : Sparse w T) (n e : Nat) :
    (s.reserve n).contains e = s.contains e := by
  unfold Sparse.reserve
  split <;> rfl

theorem reserve_get (s : Sparse w T) (n e : Nat) : (s.reserve n).get e = s.get e := by
  unfold Sparse.reserve
  split <;> rfl

theorem insert_checked_eq (s : Sparse w T) (e : Nat) (v : T) :
    s.insert_checked e v = .ok (s.insert e v) := by
  by_cases hv : e < s.sparse_.length
  swap
  · simp [insert_checked, insert, is_valid_entity_id, hv]
  cases hc : s.contains e
  · simp [insert_checked, insert, is_valid_entity_id, hv, hc, vec_write, bind, Except.bind, pure,
      Except.pure]
  · simp [insert_checked, insert, is_valid_entity_id, hv, hc]

theorem subscript_eq_get (s : Sparse w T) (e : Nat) : s.subscript e = s.get e := rfl

theorem get_total {s : Sparse w T} (h : Inv s) (e : Nat) : ∃ p, s.get e = .ok p := by
  cases hc : s.contains e
  · exact ⟨none, get_of_absent s e hc⟩
  · obtain ⟨i, hi, hne⟩ := (contains_eq_true_iff s e).mp hc
    exact ⟨some i, get_of_present h e i hi hne⟩

/-! ## The removal step -/

/-- Swapping the last position with itself and popping it is popping it. -/
theorem swap_pop_last {α : Type} (xs : List α) (n1 : Nat) (a b : α)
    (hn : n1 + 1 = xs.length) : ((xs.set n1 b).set n1 a).dropLast = xs.dropLast := by
  apply List.ext_getElem?
  intro j
  rw [swap_pop_getElem? xs n1 n1 a b hn, List.getElem?_dropLast]
  have : xs.length - 1 = n1 := by omega
  rw [this]
  by_cases hj : j < n1
  · have : j ≠ n1 := by omega
    simp [hj, this]
  · simp [hj]

theorem set_absent_self (xs : List Nat) (e x : Nat) (h : xs[e]? = some x) : xs.set e x = xs := by
  apply List.ext_getElem?
  intro j
  rw [List.getElem?_set]
  by_cases hj : e = j
  · subst hj
    simp [h, (List.getElem?_eq_some.mp h).1]
  · simp [hj]

/-- After a successful `insert`, `remove_swap` of the same id gives back the
state before the insert. -/
theorem remove_insert_ok {s : Sparse w T} (h : Inv s) (e : Nat) (v : T)
    (hv : e < s.sparse_.length) (hc : s.contains e = false) :
    (s.insert e v).1.remove_swap e = .ok (s, none) := by
  have hinv1 := h.insert e v
  have hM : s.sparse_[e]? = some (SIZE_MAX w) := by
    rcases (contains_eq_false_iff s e).mp hc with h1 | h1
    · omega
    · exact h1
  have hlt : s.dense_.length < SIZE_MAX w := by
    have := h.count_lt e hM
    have := h.size
    have := h.len
    omega
  have hlen := h.len
  rw [insert_ok s e v hv hc] at hinv1 ⊢
  have hi : (s.sparse_.set e s.dense_.length)[e]? = some s.dense_.length := by
    rw [List.getElem?_set]; simp [hv]
  obtain ⟨L, a, b, hL, _, _, hr⟩ := remove_swap_ok hinv1 e s.dense_.length hi (Nat.ne_of_lt hlt)
  simp only [List.length_append, List.length_singleton, Nat.add_sub_cancel] at hL hr
  have hLe : L = e := by
    rw [hlen, List.getElem?_append_right (Nat.le_refl _)] at hL
    simpa using hL.symm
  subst hLe
  rw [hr]
  have h1 : ((s.sparse_.set L s.dense_.length).set L s.dense_.length).set L (SIZE_MAX w) =
      s.sparse_ := by
    rw [List.set_set, List.set_set]
    exact set_absent_self _ _ _ hM
  have h2 : (((s.reverse_ ++ [L]).set s.dense_.length L).set s.dense_.length L).dropLast =
      s.reverse_ := by
    rw [swap_pop_last _ _ _ _ (by simp [hlen])]
    simp
  have h3 : (((s.dense_ ++ [v]).set s.dense_.length b).set s.dense_.length a).dropLast =
      s.dense_ := by
    rw [swap_pop_last _ _ _ _ (by simp)]
    simp
  rw [h1, h2, h3]

theorem emplace_default_checked_eq [Inhabited T] (s : Sparse w T) (e : Nat) :
    s.emplace_default_checked e = .ok (s.emplace_default e) :=
  insert_checked_eq s e default

end Sparse

open Sparse

/-! ## Properties of the specification -/

/-- C1. In every state reachable from the constructor by `insert`,
`emplace_default`, `remove_swap`, `reserve` and the batch variants, the three
structural invariants hold: `dense_` and `reverse_` have the same length; a
sparse slot that is not `SIZE_MAX` holds a position below `len(dense_)` that
`reverse_` maps back to the id; and `reverse_` maps every dense position to an
id below `len(sparse_)` whose sparse slot holds that position. -/
theorem reachable_invariants {w : Nat} {T : Type} (s : Sparse w T) (h : Reachable s) :
    invariant1 s ∧ invariant2 s ∧ invariant3 s :=
  h.inv.invariants

/-- C1 at the state after `insert(0, 10)` and `insert(3, 40)` with sparse
capacity 4. -/
theorem reachable_invariants_witness :
    invariant1 (((Sparse.init 64 Nat 4 4).insert 0 10).1.insert 3 40).1 ∧
    invariant2 (((Sparse.init 64 Nat 4 4).insert 0 10).1.insert 3 40).1 ∧
    invariant3 (((Sparse.init 64 Nat 4 4).insert 0 10).1.insert 3 40).1 :=
  reachable_invariants _
    (Reachable.insert 3 40 (Reachable.insert 0 10 (Reachable.init 4 4 (by decide) (by decide))))

/-- C2 (P1, presence after insert). In a reachable state, for a valid id `e`
(`e < len(sparse_)`) that has no component, after `insert(e, v)` the call
`contains(e)` is true and `get(e)` returns a pointer to a component equal to
`v`. -/
theorem insert_presence {w : Nat} {T : Type} (s : Sparse w T) (h : Reachable s) (e : Nat)
    (v : T) (hv : e < s.sparse_.length) (hc : s.contains e = false) :
    (s.insert e v).1.contains e = true ∧
    ∃ p, (s.insert e v).1.get e = .ok (some p) ∧ (s.insert e v).1.deref p = some v := by
  have hl := lookup_insert_ok h.inv e v hv hc e
  rw [if_pos rfl] at hl
  obtain ⟨h1, p, _, _, h2, h3⟩ := lookup_some (h.inv.insert e v) e v hl
  exact ⟨h1, p, h2, h3⟩

/-- C2 at `insert(3, 40)` on a new object with sparse capacity 4. -/
theorem insert_presence_witness :
    ((Sparse.init 64 Nat 4 4).insert 3 40).1.contains 3 = true ∧
    ∃ p, ((Sparse.init 64 Nat 4 4).insert 3 40).1.get 3 = .ok (some p) ∧
      ((Sparse.init 64 Nat 4 4).insert 3 40).1.deref p = some 40 :=
  insert_presence _ (Reachable.init 4 4 (by decide) (by decide)) 3 40 (by decide) (by decide)

/-- C3 (P2, absence after removal). In a reachable state, for an id `e` that has
a component, `remove_swap(e)` returns without a diagnostic, afterwards
`contains(e)` is false, and every other id that had a component still has one
and `get` still refers to the same component value. Also P6: with sparse
capacity 4, after `insert(0, 10)`, `insert(3, 40)` and `remove_swap(0)`,
`contains(0)` is false, `contains(3)` is true, `get(3)` refers to 40 and
`count()` is 1. -/
theorem remove_absence :
    (∀ (w : Nat) (T : Type) (s : Sparse w T), Reachable s → ∀ e, s.contains e = true →
      ∃ r, s.remove_swap e = .ok (r, none) ∧ r.contains e = false ∧
        ∀ e', e' ≠ e → s.contains e' = true →
          r.contains e' = true ∧ r.get_component e' = s.get_component e' ∧
          ∃ c, r.get_component e' = .ok (some c)) ∧
    (∃ r, (((Sparse.init 64 Nat 4 4).insert 0 10).1.insert 3 40).1.remove_swap 0 = .ok (r, none) ∧
      r.contains 0 = false ∧ r.contains 3 = true ∧ r.get_component 3 = .ok (some 40) ∧
      r.count = 1) := by
  constructor
  · intro w T s hs e hc
    obtain ⟨r, hr, hinv, _, _, hl⟩ := remove_swap_present hs.inv e hc
    refine ⟨r, hr, ?_, ?_⟩
    · rw [contains_eq_lookup hinv, hl, if_pos rfl]; rfl
    · intro e' hne hc'
      have h1 : r.lookup e' = s.lookup e' := by rw [hl, if_neg hne]
      have h2 : r.contains e' = true := by
        rw [contains_eq_lookup hinv, h1, ← contains_eq_lookup hs.inv, hc']
      refine ⟨h2, ?_, ?_⟩
      · rw [get_component_eq_lookup hinv, get_component_eq_lookup hs.inv, h1]
      · rw [get_component_eq_lookup hinv]
        rw [contains_eq_lookup hinv] at h2
        obtain ⟨c, hc2⟩ := Option.isSome_iff_exists.mp h2
        exact ⟨c, by rw [hc2]⟩
  · exact ⟨{ sparse_ := [SIZE_MAX 64, SIZE_MAX 64, SIZE_MAX 64, 0], reverse_ := [3],
             dense_ := [40], sparse_capacity := 4 }, by decide, by decide, by decide, by decide,
      by decide⟩

/-- C3 at `remove_swap(3)` after `insert(0, 10)` and `insert(3, 40)`. -/
theorem remove_absence_witness :
    ∃ r, (((Sparse.init 64 Nat 4 4).insert 0 10).1.insert 3 40).1.remove_swap 3 = .ok (r, none) ∧
      r.contains 3 = false ∧
      ∀ e', e' ≠ 3 → (((Sparse.init 64 Nat 4 4).insert 0 10).1.insert 3 40).1.contains e' = true →
        r.contains e' = true ∧
        r.get_component e' =
          (((Sparse.init 64 Nat 4 4).insert 0 10).1.insert 3 40).1.get_component e' ∧
        ∃ c, r.get_component e' = .ok (some c) :=
  remove_absence.1 64 Nat _
    (Reachable.insert 3 40 (Reachable.insert 0 10 (Reachable.init 4 4 (by decide) (by decide))))
    3 (by decide)

/-- C4 (P3, duplicate rejection). In every state (reachable or not), for an id
`e` that has a component, `insert(e, v)` and `emplace_default(e)` print the
already-has-a-component diagnostic and return the state as it was, so `get(e)`
refers to the same component and `count()` is the same. -/
theorem duplicate_rejected {w : Nat} {T : Type} [Inhabited T] (s : Sparse w T) (e : Nat)
    (v : T) (hc : s.contains e = true) :
    s.insert e v = (s, some .entity_already_has_component) ∧
    s.emplace_default e = (s, some .entity_already_has_component) ∧
    (s.insert e v).1.get_component e = s.get_component e ∧
    (s.insert e v).1.count = s.count ∧
    (s.emplace_default e).1.get_component e = s.get_component e ∧
    (s.emplace_default e).1.count = s.count := by
  have h1 := insert_duplicate s e v hc
  have h2 : s.emplace_default e = (s, some .entity_already_has_component) :=
    insert_duplicate s e default hc
  exact ⟨h1, h2, by rw [h1], by rw [h1], by rw [h2], by rw [h2]⟩

/-- C4 at a second `insert(3, 7)` after `insert(3, 40)`. -/
theorem duplicate_rejected_witness :
    ((Sparse.init 64 Nat 4 4).insert 3 40).1.insert 3 7 =
      (((Sparse.init 64 Nat 4 4).insert 3 40).1, some .entity_already_has_component) ∧
    ((Sparse.init 64 Nat 4 4).insert 3 40).1.get_component 3 = .ok (some 40) :=
  ⟨(duplicate_rejected ((Sparse.init 64 Nat 4 4).insert 3 40).1 3 7 (by decide)).1, by decide⟩

/-- C5, the claim as stated fails. With sparse capacity 4, after `reserve(8)` the
state is reachable, `capacity()` is 8 and id 7 has no component, but
`insert(7, 5)` prints the capacity diagnostic and changes nothing: id 7 is
compared with the size of `sparse_`, which is still 4. -/
theorem capacity_boundary_counterexample :
    Reachable ((Sparse.init 64 Nat 4 4).reserve 8) ∧
    ((Sparse.init 64 Nat 4 4).reserve 8).capacity = 8 ∧
    ((Sparse.init 64 Nat 4 4).reserve 8).contains (8 - 1) = false ∧
    ((Sparse.init 64 Nat 4 4).reserve 8).insert (8 - 1) 5 =
      ((Sparse.init 64 Nat 4 4).reserve 8, some .not_enough_capacity) ∧
    (((Sparse.init 64 Nat 4 4).reserve 8).insert (8 - 1) 5).1.contains (8 - 1) = false :=
  ⟨Reachable.reserve 8 (Reachable.init 4 4 (by decide) (by decide)), by decide, by decide,
    by decide, by decide⟩

/-- C5, amended (P4, capacity boundary). The boundary is the size of `sparse_`,
not `capacity()`: in a reachable state whose `sparse_` has size `n > 0` and in
which id `n - 1` has no component, `insert(n - 1, v)` succeeds (no diagnostic,
and `contains(n - 1)` is true afterwards); `insert(n, v)` prints the capacity
diagnostic and returns the state as it was; and `n <= capacity()`, so
`insert(capacity(), v)` too prints the capacity diagnostic and changes nothing. -/
theorem capacity_boundary {w : Nat} {T : Type} (s : Sparse w T) (h : Reachable s) (v : T) :
    (0 < s.sparse_.length → s.contains (s.sparse_.length - 1) = false →
      (s.insert (s.sparse_.length - 1) v).2 = none ∧
      (s.insert (s.sparse_.length - 1) v).1.contains (s.sparse_.length - 1) = true) ∧
    s.insert s.sparse_.length v = (s, some .not_enough_capacity) ∧
    s.sparse_.length ≤ s.capacity ∧
    s.insert s.capacity v = (s, some .not_enough_capacity) := by
  have hcap : s.sparse_.length ≤ s.capacity := h.inv.cap
  refine ⟨?_, insert_invalid s _ v (Nat.lt_irrefl _), hcap,
    insert_invalid s _ v (Nat.not_lt.mpr hcap)⟩
  intro hpos hc
  have hv : s.sparse_.length - 1 < s.sparse_.length := by omega
  have hl := lookup_insert_ok h.inv _ v hv hc (s.sparse_.length - 1)
  rw [if_pos rfl] at hl
  refine ⟨?_, (lookup_some (h.inv.insert _ v) _ v hl).1⟩
  rw [insert_ok s _ v hv hc]

/-- C5 amended, at the state of the counterexample: ids 3 and 4 are the
boundary, not ids 7 and 8. -/
theorem capacity_boundary_witness :
    ((((Sparse.init 64 Nat 4 4).reserve 8).insert 3 5).2 = none ∧
      (((Sparse.init 64 Nat 4 4).reserve 8).insert 3 5).1.contains 3 = true) ∧
    ((Sparse.init 64 Nat 4 4).reserve 8).insert 4 5 =
      ((Sparse.init 64 Nat 4 4).reserve 8, some .not_enough_capacity) ∧
    4 ≤ ((Sparse.init 64 Nat 4 4).reserve 8).capacity ∧
    ((Sparse.init 64 Nat 4 4).reserve 8).insert 8 5 =
      ((Sparse.init 64 Nat 4 4).reserve 8, some .not_enough_capacity) :=
  ⟨(capacity_boundary ((Sparse.init 64 Nat 4 4).reserve 8)
      (Reachable.reserve 8 (Reachable.init 4 4 (by decide) (by decide))) 5).1
      (by decide) (by decide),
    (capacity_boundary ((Sparse.init 64 Nat 4 4).reserve 8)
      (Reachable.reserve 8 (Reachable.init 4 4 (by decide) (by decide))) 5).2⟩

/-- C6 (P5, round trip). In a reachable state, for a valid id `e` that has no
component, `insert(e, v1)`, `remove_swap(e)`, `insert(e, v2)` all succeed (the
second insert prints no diagnostic), and afterwards `contains(e)` is true and
`get(e)` refers to `v2`. -/
theorem round_trip {w : Nat} {T : Type} (s : Sparse w T) (h : Reachable s) (e : Nat)
    (v1 v2 : T) (hv : e < s.sparse_.length) (hc : s.contains e = false) :
    (s.insert e v1).2 = none ∧
    ∃ r, (s.insert e v1).1.remove_swap e = .ok (r, none) ∧
      (r.insert e v2).2 = none ∧
      (r.insert e v2).1.contains e = true ∧
      (r.insert e v2).1.get_component e = .ok (some v2) := by
  have hinv1 := h.inv.insert e v1
  have hl1 := lookup_insert_ok h.inv e v1 hv hc e
  rw [if_pos rfl] at hl1
  have hc1 := (lookup_some hinv1 e v1 hl1).1
  obtain ⟨r, hr, hinv2, _, hlen, hl2⟩ := remove_swap_present hinv1 e hc1
  have hc2 : r.contains e = false := by
    rw [contains_eq_lookup hinv2, hl2, if_pos rfl]; rfl
  have hv2 : e < r.sparse_.length := by rw [hlen, insert_length]; exact hv
  have hl3 := lookup_insert_ok hinv2 e v2 hv2 hc2 e
  rw [if_pos rfl] at hl3
  have hinv3 := hinv2.insert e v2
  refine ⟨by rw [insert_ok s e v1 hv hc], r, hr, by rw [insert_ok r e v2 hv2 hc2],
    (lookup_some hinv3 e v2 hl3).1, ?_⟩
  rw [get_component_eq_lookup hinv3, hl3]

/-- C6 at `insert(2, 10)`, `remove_swap(2)`, `insert(2, 20)` on a new object. -/
theorem round_trip_witness :
    ((Sparse.init 64 Nat 4 4).insert 2 10).2 = none ∧
    ∃ r, ((Sparse.init 64 Nat 4 4).insert 2 10).1.remove_swap 2 = .ok (r, none) ∧
      (r.insert 2 20).2 = none ∧
      (r.insert 2 20).1.contains 2 = true ∧
      (r.insert 2 20).1.get_component 2 = .ok (some 20) :=
  round_trip _ (Reachable.init 4 4 (by decide) (by decide)) 2 10 20 (by decide) (by decide)

/-- C7 (P7, batch independence). In every state, for every non-empty pack of ids
(a head and a rest), `batch_insert` gives exactly the state and the diagnostics
of calling `insert` for each id from left to right, and so do `batch_emplace`
with `emplace_default` and `batch_remove_swap` with `remove_swap`; a call that
prints a diagnostic returns the state as it was. On an empty set of sparse
capacity at least 2, `batch_insert(0, 1, 1, 5)` leaves ids 0 and 1 with the
component 5 and `count()` 2, the third call reporting a duplicate. -/
theorem batch_independence {w : Nat} {T : Type} [Inhabited T] (s : Sparse w T) (e : Nat)
    (ids : List Nat) (v : T) :
    s.batch_insert e ids v = s.insert_each (e :: ids) v ∧
    s.batch_emplace e ids = s.emplace_each (e :: ids) ∧
    s.batch_remove_swap e ids = s.remove_swap_each (e :: ids) ∧
    ((s.insert e v).2 ≠ none → (s.insert e v).1 = s) ∧
    ((s.emplace_default e).2 ≠ none → (s.emplace_default e).1 = s) ∧
    (∀ r, s.remove_swap e = .ok r → r.2 ≠ none → r.1 = s) ∧
    (∀ dc sc : Nat, 2 ≤ sc → sc < 2 ^ w →
      ((Sparse.init w Nat dc sc).batch_insert 0 [1, 1] 5).1.contains 0 = true ∧
      ((Sparse.init w Nat dc sc).batch_insert 0 [1, 1] 5).1.contains 1 = true ∧
      ((Sparse.init w Nat dc sc).batch_insert 0 [1, 1] 5).1.get_component 0 = .ok (some 5) ∧
      ((Sparse.init w Nat dc sc).batch_insert 0 [1, 1] 5).1.get_component 1 = .ok (some 5) ∧
      ((Sparse.init w Nat dc sc).batch_insert 0 [1, 1] 5).1.count = 2 ∧
      ((Sparse.init w Nat dc sc).batch_insert 0 [1, 1] 5).2 =
        [none, none, some .entity_already_has_component]) := by
  refine ⟨batch_insert_eq_each s e ids v, batch_emplace_eq_each s e ids,
    batch_remove_swap_eq_each s e ids, ?_, ?_, remove_swap_diag s e, ?_⟩
  · intro hd
    rcases insert_cases s e v with ⟨_, _, h⟩ | ⟨h, _, _⟩
    · exact absurd h hd
    · exact h
  · intro hd
    rcases insert_cases s e default with ⟨_, _, h⟩ | ⟨h, _, _⟩
    · exact absurd h hd
    · exact h
  · intro dc sc h2 hsc
    have hinv0 : Inv (Sparse.init w Nat dc sc) := Inv.init dc sc hsc
    have hlen0 : (Sparse.init w Nat dc sc).sparse_.length = sc := by simp [Sparse.init]
    have hc0 : ∀ e, (Sparse.init w Nat dc sc).contains e = false := contains_init dc sc
    have hv0 : 0 < (Sparse.init w Nat dc sc).sparse_.length := by omega
    -- the first call stores 5 for id 0
    have hinv1 := hinv0.insert 0 5
    have hl1 := lookup_insert_ok hinv0 0 5 hv0 (hc0 0)
    have hd1 : ((Sparse.init w Nat dc sc).insert 0 5).2 = none := by
      rw [insert_ok _ 0 5 hv0 (hc0 0)]
    have hn1 := insert_count_ok _ 0 5 hv0 (hc0 0)
    have hc1 : ((Sparse.init w Nat dc sc).insert 0 5).1.contains 1 = false := by
      rw [contains_eq_lookup hinv1, hl1 1, if_neg (by decide), ← contains_eq_lookup hinv0, hc0]
    have hv1 : 1 < ((Sparse.init w Nat dc sc).insert 0 5).1.sparse_.length := by
      rw [insert_length]; omega
    -- the second call stores 5 for id 1
    have hinv2 := hinv1.insert 1 5
    have hl2 := lookup_insert_ok hinv1 1 5 hv1 hc1
    have hd2 : (((Sparse.init w Nat dc sc).insert 0 5).1.insert 1 5).2 = none := by
      rw [insert_ok _ 1 5 hv1 hc1]
    have hn2 := insert_count_ok _ 1 5 hv1 hc1
    have hl20 := hl2 0
    rw [if_neg (by decide), hl1 0, if_pos rfl] at hl20
    have hl21 := hl2 1
    rw [if_pos rfl] at hl21
    have hc2 := (lookup_some hinv2 1 5 hl21).1
    -- the third call is rejected
    have h3 := insert_duplicate _ 1 5 hc2
    have hb : (Sparse.init w Nat dc sc).batch_insert 0 [1, 1] 5 =
        ((((Sparse.init w Nat dc sc).insert 0 5).1.insert 1 5).1,
          [none, none, some .entity_already_has_component]) := by
      simp only [batch_insert, h3, hd1, hd2]
    rw [hb]
    refine ⟨(lookup_some hinv2 0 5 hl20).1, hc2, ?_, ?_, ?_, rfl⟩
    · rw [get_component_eq_lookup hinv2, hl20]
    · rw [get_component_eq_lookup hinv2, hl21]
    · rw [hn2, hn1]; rfl

/-- C7 at sparse capacity 2 and a 64-bit size type. -/
theorem batch_independence_witness :
    ((Sparse.init 64 Nat 2 2).batch_insert 0 [1, 1] 5).1.contains 0 = true ∧
    ((Sparse.init 64 Nat 2 2).batch_insert 0 [1, 1] 5).1.contains 1 = true ∧
    ((Sparse.init 64 Nat 2 2).batch_insert 0 [1, 1] 5).1.get_component 0 = .ok (some 5) ∧
    ((Sparse.init 64 Nat 2 2).batch_insert 0 [1, 1] 5).1.get_component 1 = .ok (some 5) ∧
    ((Sparse.init 64 Nat 2 2).batch_insert 0 [1, 1] 5).1.count = 2 ∧
    ((Sparse.init 64 Nat 2 2).batch_insert 0 [1, 1] 5).2 =
      [none, none, some .entity_already_has_component] :=
  (batch_independence (Sparse.init 64 Nat 2 2) 0 [] 0).2.2.2.2.2.2 2 2 (by decide) (by decide)

/-- C8. In a reachable state, for every id (valid or not): `get(id)` returns
`nullopt` exactly when `contains(id)` is false; when `contains(id)` is true it
returns the address of the dense element at position `sparse_[id]`; that
element is the component most recently stored for the id, whatever history of
calls led to the state; and `get` on a non-const object returns the same result
and the state as it was. -/
theorem get_fallible {w : Nat} {T : Type} (s : Sparse w T) (h : Reachable s) (id : Nat) :
    (s.get id = .ok none ↔ s.contains id = false) ∧
    (s.contains id = true →
      ∃ p, s.sparse_[id]? = some p ∧ p < s.dense_.length ∧ s.get id = .ok (some p)) ∧
    (∃ m, Stores m s) ∧
    (∀ m, Stores m s → s.get_component id = .ok (m id) ∧ s.contains id = (m id).isSome) ∧
    s.get_mut id = (s.get id).map (fun p => (p, s)) := by
  have hinv := h.inv
  have hpres : s.contains id = true →
      ∃ p, s.sparse_[id]? = some p ∧ p < s.dense_.length ∧ s.get id = .ok (some p) := by
    intro hc
    obtain ⟨i, hi, hne⟩ := (contains_eq_true_iff s id).mp hc
    exact ⟨i, hi, (hinv.fwd id i hi hne).1, get_of_present hinv id i hi hne⟩
  refine ⟨⟨?_, get_of_absent s id⟩, hpres, h.stores, ?_, get_mut_eq s id⟩
  · intro hg
    cases hc : s.contains id
    · rfl
    · obtain ⟨p, _, _, hp⟩ := hpres hc
      rw [hg] at hp
      cases hp
  · intro m hm
    rw [get_component_eq_lookup hinv, contains_eq_lookup hinv, hm.sim.2 id]
    exact ⟨rfl, rfl⟩

/-- C8 at id 3 after `insert(3, 40)` on a new object with sparse capacity 4. -/
theorem get_fallible_witness :
    (((Sparse.init 64 Nat 4 4).insert 3 40).1.get 3 = .ok none ↔
      ((Sparse.init 64 Nat 4 4).insert 3 40).1.contains 3 = false) ∧
    (((Sparse.init 64 Nat 4 4).insert 3 40).1.contains 3 = true →
      ∃ p, ((Sparse.init 64 Nat 4 4).insert 3 40).1.sparse_[3]? = some p ∧
        p < ((Sparse.init 64 Nat 4 4).insert 3 40).1.dense_.length ∧
        ((Sparse.init 64 Nat 4 4).insert 3 40).1.get 3 = .ok (some p)) ∧
    (∃ m, Stores m ((Sparse.init 64 Nat 4 4).insert 3 40).1) ∧
    (∀ m, Stores m ((Sparse.init 64 Nat 4 4).insert 3 40).1 →
      ((Sparse.init 64 Nat 4 4).insert 3 40).1.get_component 3 = .ok (m 3) ∧
      ((Sparse.init 64 Nat 4 4).insert 3 40).1.contains 3 = (m 3).isSome) ∧
    ((Sparse.init 64 Nat 4 4).insert 3 40).1.get_mut 3 =
      (((Sparse.init 64 Nat 4 4).insert 3 40).1.get 3).map
        (fun p => (p, ((Sparse.init 64 Nat 4 4).insert 3 40).1)) :=
  get_fallible _ (Reachable.insert 3 40 (Reachable.init 4 4 (by decide) (by decide))) 3

/-- C9. In every state (reachable or not), for an id that is invalid
(`id >= len(sparse_)`) or valid without a component, `remove_swap(id)` returns
the state as it was, with the capacity diagnostic for an invalid id and the
no-component diagnostic otherwise; so `count()`, `contains` and `get` give the
same results as before. -/
theorem failed_remove_noop {w : Nat} {T : Type} (s : Sparse w T) (id : Nat)
    (h : ¬ id < s.sparse_.length ∨ s.contains id = false) :
    s.remove_swap id = .ok (s, some
      (if id < s.sparse_.length then .entity_has_no_component else .not_enough_capacity)) ∧
    ∀ r, s.remove_swap id = .ok r →
      r.1 = s ∧ r.1.count = s.count ∧ ∀ e, r.1.contains e = s.contains e ∧ r.1.get e = s.get e := by
  have h1 : s.remove_swap id = .ok (s, some
      (if id < s.sparse_.length then .entity_has_no_component else .not_enough_capacity)) := by
    by_cases hv : id < s.sparse_.length
    · rcases h with h | h
      · exact absurd hv h
      · rw [if_pos hv]; exact remove_swap_absent s id hv h
    · rw [if_neg hv]; exact remove_swap_invalid s id hv
  refine ⟨h1, ?_⟩
  intro r hr
  rw [h1] at hr
  cases hr
  exact ⟨rfl, rfl, fun e => ⟨rfl, rfl⟩⟩

/-- C9 at the invalid id 9 and at the valid id 2 that has no component. -/
theorem failed_remove_noop_witness :
    ((Sparse.init 64 Nat 4 4).insert 3 40).1.remove_swap 9 =
      .ok (((Sparse.init 64 Nat 4 4).insert 3 40).1, some .not_enough_capacity) ∧
    ((Sparse.init 64 Nat 4 4).insert 3 40).1.remove_swap 2 =
      .ok (((Sparse.init 64 Nat 4 4).insert 3 40).1, some .entity_has_no_component) :=
  ⟨(failed_remove_noop ((Sparse.init 64 Nat 4 4).insert 3 40).1 9 (Or.inl (by decide))).1,
   (failed_remove_noop ((Sparse.init 64 Nat 4 4).insert 3 40).1 2 (Or.inr (by decide))).1⟩

/-- C11 (P8, registry type isolation). For every registry state, every component
type `A` of its list and every id, `emplace<A>(id)` replaces the sparse set of
`A` by exactly the result of `emplace_default(id)` on it, with the same
diagnostic, and leaves the sparse set of every other component type `B` as it
was, so `contains`, `get` and `count` on it are unchanged; `contains_type<A>()`
is true. -/
theorem registry_isolation {w n : Nat} {Ts : Fin n → Type} [∀ i, Inhabited (Ts i)]
    (r : Registry w Ts) (A : Fin n) (id : Nat) :
    (r.emplace A id).1.storage_ A = ((r.storage_ A).emplace_default id).1 ∧
    (r.emplace A id).2 = ((r.storage_ A).emplace_default id).2 ∧
    r.contains_type A = true ∧
    ∀ B : Fin n, B ≠ A →
      (r.emplace A id).1.storage_ B = r.storage_ B ∧
      ∀ e, ((r.emplace A id).1.storage_ B).contains e = (r.storage_ B).contains e ∧
        ((r.emplace A id).1.storage_ B).get e = (r.storage_ B).get e ∧
        ((r.emplace A id).1.storage_ B).count = (r.storage_ B).count := by
  refine ⟨by simp [Registry.emplace], rfl, ?_, ?_⟩
  · simp [Registry.contains_type]
  · intro B hB
    have hs : (r.emplace A id).1.storage_ B = r.storage_ B := by
      simp [Registry.emplace, Function.update_noteq hB]
    exact ⟨hs, fun e => by rw [hs]; exact ⟨rfl, rfl, rfl⟩⟩

/-- C11 at a registry over two component types with small sparse sets:
`emplace` for type 0 and id 5 gives type 0 the component and leaves type 1
without one. -/
theorem registry_isolation_witness :
    (((⟨fun _ => Sparse.init 64 Nat 8 8⟩ : Registry 64 (fun _ : Fin 2 => Nat)).emplace 0 5).1.storage_
      0).contains 5 = true ∧
    (((⟨fun _ => Sparse.init 64 Nat 8 8⟩ : Registry 64 (fun _ : Fin 2 => Nat)).emplace 0 5).1.storage_
      1) = Sparse.init 64 Nat 8 8 := by
  have h := registry_isolation (⟨fun _ => Sparse.init 64 Nat 8 8⟩ :
    Registry 64 (fun _ : Fin 2 => Nat)) 0 5
  refine ⟨?_, (h.2.2.2 1 (by decide)).1⟩
  rw [h.1]
  decide

/-- C12. In a reachable state `count()` is the number of ids for which
`contains` is true, so it is at most the size of `sparse_`. `insert` and
`emplace_default` for a valid id that has no component succeed (no diagnostic)
and raise `count()` by exactly one; for any other id they print a diagnostic
and leave `count()`. `remove_swap` for an id that has a component succeeds and
lowers `count()` by exactly one; for any other id it prints a diagnostic and
leaves `count()`. `reserve` leaves `count()`. Success and failure are also
stated by the diagnostic alone. -/
theorem count_is_live {w : Nat} {T : Type} (s : Sparse w T) (h : Reachable s) :
    s.count = s.present_ids.length ∧
    (∀ e, e ∈ s.present_ids ↔ s.contains e = true) ∧
    s.present_ids.Nodup ∧
    s.count ≤ s.sparse_.length ∧
    (∀ e v, e < s.sparse_.length → s.contains e = false →
      (s.insert e v).2 = none ∧ (s.insert e v).1.count = s.count + 1) ∧
    (∀ e v, ¬ e < s.sparse_.length ∨ s.contains e = true →
      (s.insert e v).2 ≠ none ∧ (s.insert e v).1.count = s.count) ∧
    (∀ [Inhabited T] (e : Nat), e < s.sparse_.length → s.contains e = false →
      (s.emplace_default e).2 = none ∧ (s.emplace_default e).1.count = s.count + 1) ∧
    (∀ [Inhabited T] (e : Nat), ¬ e < s.sparse_.length ∨ s.contains e = true →
      (s.emplace_default e).2 ≠ none ∧ (s.emplace_default e).1.count = s.count) ∧
    (∀ e, s.contains e = true →
      ∃ r, s.remove_swap e = .ok (r, none) ∧ r.count + 1 = s.count) ∧
    (∀ e, s.contains e = false →
      ∃ d, s.remove_swap e = .ok (s, some d)) ∧
    (∀ e v, ((s.insert e v).2 = none → (s.insert e v).1.count = s.count + 1) ∧
      ((s.insert e v).2 ≠ none → (s.insert e v).1.count = s.count)) ∧
    (∀ [Inhabited T] (e : Nat),
      ((s.emplace_default e).2 = none → (s.emplace_default e).1.count = s.count + 1) ∧
      ((s.emplace_default e).2 ≠ none → (s.emplace_default e).1.count = s.count)) ∧
    (∀ e, ∃ r, s.remove_swap e = .ok r ∧ (r.2 = none → r.1.count + 1 = s.count) ∧
      (r.2 ≠ none → r.1.count = s.count)) ∧
    (∀ n, (s.reserve n).count = s.count) := by
  have hinv := h.inv
  have hok : ∀ e v, e < s.sparse_.length → s.contains e = false →
      (s.insert e v).2 = none ∧ (s.insert e v).1.count = s.count + 1 := by
    intro e v hv hc
    exact ⟨by rw [insert_ok s e v hv hc], insert_count_ok s e v hv hc⟩
  have hfail : ∀ e v, ¬ e < s.sparse_.length ∨ s.contains e = true →
      (s.insert e v).2 ≠ none ∧ (s.insert e v).1.count = s.count := by
    intro e v hor
    rcases hor with hv | hc
    · rw [insert_invalid s e v hv]
      exact ⟨by simp, rfl⟩
    · rw [insert_duplicate s e v hc]
      exact ⟨by simp, rfl⟩
  have hins : ∀ e v, ((s.insert e v).2 = none → (s.insert e v).1.count = s.count + 1) ∧
      ((s.insert e v).2 ≠ none → (s.insert e v).1.count = s.count) := by
    intro e v
    rcases insert_cases s e v with ⟨hv, hc, hd⟩ | ⟨hs, hd, _⟩
    · exact ⟨fun _ => insert_count_ok s e v hv hc, fun hn => absurd hd hn⟩
    · exact ⟨fun hn => absurd hn hd, fun _ => by rw [hs]⟩
  have hrem : ∀ e, s.contains e = true →
      ∃ r, s.remove_swap e = .ok (r, none) ∧ r.count + 1 = s.count := by
    intro e hc
    obtain ⟨r, hr, _, hcnt, _, _⟩ := remove_swap_present hinv e hc
    exact ⟨r, hr, hcnt⟩
  have hkeep : ∀ e, s.contains e = false →
      s.remove_swap e = .ok (s, some
        (if e < s.sparse_.length then .entity_has_no_component else .not_enough_capacity)) := by
    intro e hc
    by_cases hv : e < s.sparse_.length
    · rw [if_pos hv]; exact remove_swap_absent s e hv hc
    · rw [if_neg hv]; exact remove_swap_invalid s e hv
  refine ⟨count_eq_present hinv, ?_, present_ids_nodup s, ?_, hok, hfail,
    fun {_} e => hok e default, fun {_} e => hfail e default, hrem,
    fun e hc => ⟨_, hkeep e hc⟩, hins, fun {_} e => hins e default, ?_, ?_⟩
  · intro e
    unfold present_ids
    rw [List.mem_filter, List.mem_range]
    exact ⟨fun hx => hx.2, fun hc => ⟨contains_lt s e hc, hc⟩⟩
  · have := hinv.count_le
    have := hinv.len
    unfold count
    omega
  · intro e
    cases hc : s.contains e
    · exact ⟨_, hkeep e hc, fun hn => by simp at hn, fun _ => rfl⟩
    · obtain ⟨r, hr, hcnt⟩ := hrem e hc
      exact ⟨_, hr, fun _ => hcnt, fun hn => absurd rfl hn⟩
  · intro n
    unfold count
    rw [(reserve_arrays s n).2.1]

/-- C12 after `insert(0, 10)` and `insert(3, 40)` with sparse capacity 4: two
components, for the ids 0 and 3; `remove_swap(3)` succeeds and leaves one;
`insert(1, 7)` succeeds and makes three; `insert(3, 7)` is rejected and leaves
two. -/
theorem count_is_live_witness :
    (((Sparse.init 64 Nat 4 4).insert 0 10).1.insert 3 40).1.count = 2 ∧
    (((Sparse.init 64 Nat 4 4).insert 0 10).1.insert 3 40).1.present_ids = [0, 3] ∧
    (∃ r, (((Sparse.init 64 Nat 4 4).insert 0 10).1.insert 3 40).1.remove_swap 3 =
        .ok (r, none) ∧
      r.count + 1 = (((Sparse.init 64 Nat 4 4).insert 0 10).1.insert 3 40).1.count) ∧
    (((((Sparse.init 64 Nat 4 4).insert 0 10).1.insert 3 40).1.insert 1 7).2 = none ∧
      ((((Sparse.init 64 Nat 4 4).insert 0 10).1.insert 3 40).1.insert 1 7).1.count =
        (((Sparse.init 64 Nat 4 4).insert 0 10).1.insert 3 40).1.count + 1) ∧
    (((((Sparse.init 64 Nat 4 4).insert 0 10).1.insert 3 40).1.insert 3 7).2 ≠ none ∧
      ((((Sparse.init 64 Nat 4 4).insert 0 10).1.insert 3 40).1.insert 3 7).1.count =
        (((Sparse.init 64 Nat 4 4).insert 0 10).1.insert 3 40).1.count) :=
  ⟨((count_is_live _ (Reachable.insert 3 40 (Reachable.insert 0 10
      (Reachable.init 4 4 (by decide) (by decide))))).1).trans (by decide), by decide,
    (count_is_live _ (Reachable.insert 3 40 (Reachable.insert 0 10
      (Reachable.init 4 4 (by decide) (by decide))))).2.2.2.2.2.2.2.2.1 3 (by decide),
    (count_is_live _ (Reachable.insert 3 40 (Reachable.insert 0 10
      (Reachable.init 4 4 (by decide) (by decide))))).2.2.2.2.1 1 7 (by decide) (by decide),
    (count_is_live _ (Reachable.insert 3 40 (Reachable.insert 0 10
      (Reachable.init 4 4 (by decide) (by decide))))).2.2.2.2.2.1 3 7 (Or.inr (by decide))⟩

/-- C13. In a reachable state the sequence from `begin()` to `end()` is a
permutation of what `get` refers to over the ids that have a component: the
component of such an id stands at position `sparse_[id]`, every position holds
the component of an id that has one, and there are as many positions as such
ids. -/
theorem iteration_live {w : Nat} {T : Type} (s : Sparse w T) (h : Reachable s) :
    (s.iterate.map (fun c => (Except.ok (some c) : Except Fault (Option T)))).Perm
      (s.present_ids.map s.get_component) ∧
    s.iterate.length = s.present_ids.length ∧
    s.present_ids.Nodup ∧
    (∀ e, e ∈ s.present_ids ↔ s.contains e = true) ∧
    (∀ e, s.contains e = true →
      ∃ p c, s.sparse_[e]? = some p ∧ s.iterate[p]? = some c ∧
        s.get_component e = .ok (some c)) ∧
    (∀ p c, s.iterate[p]? = some c →
      ∃ e, s.contains e = true ∧ s.sparse_[e]? = some p ∧
        s.get_component e = .ok (some c)) := by
  have hinv := h.inv
  refine ⟨iterate_perm hinv, count_eq_present hinv, present_ids_nodup s, ?_, ?_, ?_⟩
  · intro e
    unfold present_ids
    rw [List.mem_filter, List.mem_range]
    exact ⟨fun hx => hx.2, fun hc => ⟨contains_lt s e hc, hc⟩⟩
  · intro e hc
    rw [contains_eq_lookup hinv] at hc
    obtain ⟨c, hl⟩ := Option.isSome_iff_exists.mp hc
    obtain ⟨_, p, hp, _, _, hd⟩ := lookup_some hinv e c hl
    exact ⟨p, c, hp, hd, by rw [get_component_eq_lookup hinv, hl]⟩
  · intro p c hp
    have hlt : p < s.dense_.length := (List.getElem?_eq_some.mp hp).1
    have hlt2 : p < s.reverse_.length := hinv.len ▸ hlt
    have hs := hinv.bwd p _ (List.getElem?_eq_getElem hlt2)
    have hne : p ≠ SIZE_MAX w := by
      have := hinv.dense_lt
      omega
    refine ⟨s.reverse_[p], (contains_eq_true_iff s _).mpr ⟨p, hs, hne⟩, hs, ?_⟩
    rw [get_component_eq_lookup hinv]
    unfold iterate at hp
    simp [lookup, hs, hne, hp]

/-- C13 after `insert(0, 10)`, `insert(3, 40)` and `insert(1, 7)` with sparse
capacity 4: the iteration is the three components in the order of the calls,
as many as there are ids with a component. -/
theorem iteration_live_witness :
    ((((Sparse.init 64 Nat 4 4).insert 0 10).1.insert 3 40).1.insert 1 7).1.iterate =
      [10, 40, 7] ∧
    ((((Sparse.init 64 Nat 4 4).insert 0 10).1.insert 3 40).1.insert 1 7).1.iterate.length =
      ((((Sparse.init 64 Nat 4 4).insert 0 10).1.insert 3 40).1.insert 1 7).1.present_ids.length :=
  ⟨by decide, (iteration_live _ (Reachable.insert 1 7 (Reachable.insert 3 40
    (Reachable.insert 0 10 (Reachable.init 4 4 (by decide) (by decide)))))).2.1⟩

/-- C14. In a reachable state every sparse slot that is not `SIZE_MAX` holds a
position below `count()`, `count()` is at most the size of `sparse_`, and that
is at most `SIZE_MAX`; the position an `insert` without diagnostic writes is
the old `count()`, below `SIZE_MAX`. So `contains(e)` is false exactly when no
component is stored for `e`: `e` is out of range, or no `insert` or
`emplace_default` for `e` succeeded, or a `remove_swap` succeeded since. -/
theorem no_sentinel_alias {w : Nat} {T : Type} (s : Sparse w T) (h : Reachable s) :
    (∀ e i : Nat, s.sparse_[e]? = some i → i ≠ SIZE_MAX w → i < s.count) ∧
    s.count ≤ s.sparse_.length ∧
    s.sparse_.length ≤ SIZE_MAX w ∧
    SIZE_MAX w = 2 ^ w - 1 ∧
    (∀ e v, (s.insert e v).2 = none →
      (s.insert e v).1.sparse_[e]? = some s.count ∧ s.count < SIZE_MAX w) ∧
    (∃ m, Stores m s) ∧
    (∀ m, Stores m s → ∀ e, (s.contains e = false ↔ m e = none) ∧
      (¬ e < s.sparse_.length → m e = none)) := by
  have hinv := h.inv
  have hcnt : s.count ≤ s.sparse_.length := by
    have := hinv.count_le
    have := hinv.len
    unfold count
    omega
  refine ⟨fun e i hi hne => (hinv.fwd e i hi hne).1, hcnt, hinv.size, rfl, ?_, h.stores, ?_⟩
  · intro e v hd
    rcases insert_cases s e v with ⟨hv, hc, _⟩ | ⟨_, hd2, _⟩
    swap
    · exact absurd hd hd2
    have hM : s.sparse_[e]? = some (SIZE_MAX w) := by
      rcases (contains_eq_false_iff s e).mp hc with h1 | h1
      · omega
      · exact h1
    have hlt := hinv.count_lt e hM
    have hsz := hinv.size
    have hlen := hinv.len
    rw [insert_ok s e v hv hc]
    refine ⟨by simp [List.getElem?_set, hv, count], ?_⟩
    unfold count
    omega
  · intro m hm e
    have hce : s.contains e = (m e).isSome := by
      rw [contains_eq_lookup hinv, hm.sim.2 e]
    have hiff : s.contains e = false ↔ m e = none := by
      rw [hce]
      cases m e <;> simp
    refine ⟨hiff, fun hv => hiff.mp ?_⟩
    exact (contains_eq_false_iff s e).mpr (Or.inl (Nat.le_of_not_lt hv))

/-- C14 after `insert(0, 10)` and `insert(3, 40)` with sparse capacity 4 and a
64-bit size type. -/
theorem no_sentinel_alias_witness :
    (((Sparse.init 64 Nat 4 4).insert 0 10).1.insert 3 40).1.count ≤ 4 ∧
    (((Sparse.init 64 Nat 4 4).insert 0 10).1.insert 3 40).1.sparse_.length ≤ SIZE_MAX 64 :=
  ⟨((no_sentinel_alias _ (Reachable.insert 3 40 (Reachable.insert 0 10
      (Reachable.init 4 4 (by decide) (by decide))))).2.1).trans (by decide),
    (no_sentinel_alias _ (Reachable.insert 3 40 (Reachable.insert 0 10
      (Reachable.init 4 4 (by decide) (by decide))))).2.2.1⟩

/-- C15 (reserve contract). In every state and for every `n`, after
`reserve(n)` the value of `capacity()` is at least `n`; the three arrays are
the same, and so are `count()`, the iteration and, for every id, `contains`
and `get`; `reserve(n)` with `n <= capacity()` returns the state as it was, and
a second `reserve(n)` changes nothing. -/
theorem reserve_contract {w : Nat} {T : Type} (s : Sparse w T) (n : Nat) :
    n ≤ (s.reserve n).capacity ∧
    (s.reserve n).sparse_ = s.sparse_ ∧ (s.reserve n).dense_ = s.dense_ ∧
    (s.reserve n).reverse_ = s.reverse_ ∧
    (s.reserve n).count = s.count ∧
    (s.reserve n).iterate = s.iterate ∧
    (∀ e, (s.reserve n).contains e = s.contains e ∧ (s.reserve n).get e = s.get e ∧
      (s.reserve n).get_component e = s.get_component e) ∧
    (n ≤ s.capacity → s.reserve n = s) ∧
    (s.reserve n).reserve n = s.reserve n := by
  have ha := reserve_arrays s n
  have hcap : n ≤ (s.reserve n).capacity := by
    unfold Sparse.reserve capacity
    split
    · exact Nat.le_refl _
    · omega
  have hid : ∀ t : Sparse w T, n ≤ t.capacity → t.reserve n = t := by
    intro t ht
    unfold Sparse.reserve
    unfold capacity at ht
    rw [if_neg (by omega)]
  refine ⟨hcap, ha.1, ha.2.1, ha.2.2, ?_, ha.2.1, ?_, hid s, hid _ hcap⟩
  · unfold count; rw [ha.2.1]
  · intro e
    refine ⟨reserve_contains s n e, reserve_get s n e, ?_⟩
    unfold get_component deref
    rw [reserve_get, ha.2.1]

/-- C16. In every state and for every id, `emplace_default(id)` returns the same
state and the same diagnostic (none, capacity, or duplicate) as `insert(id, d)`
for the default-constructed value `d` of `T`. -/
theorem emplace_is_insert_default {w : Nat} {T : Type} [Inhabited T] (s : Sparse w T)
    (id : Nat) : s.emplace_default id = s.insert id (default : T) := by
  unfold Sparse.emplace_default Sparse.insert
  rfl

/-- C17 (swap-removal step). In a reachable state with `n = count()`, for an id
`e` that has a component at position `i = sparse_[e]`, and `L` the id at the
last position of `reverse_`: `remove_swap(e)` returns without diagnostic;
`dense_` and `reverse_` have length `n - 1` and agree with the old arrays at
every position `j < n - 1` other than `i`; if `i < n - 1`, position `i` holds
the old last component and `L`, and `sparse_[L]` is `i`; `sparse_[e]` is
`SIZE_MAX` and every sparse slot other than those of `e` and `L` is unchanged.
If `i = n - 1`, the new `dense_` and `reverse_` are the old ones without their
last entry, and `sparse_` changes at `e` only. -/
theorem swap_removal_step {w : Nat} {T : Type} (s : Sparse w T) (h : Reachable s)
    (e i : Nat) (hi : s.sparse_[e]? = some i) (hne : i ≠ SIZE_MAX w) :
    ∃ r L, s.remove_swap e = .ok (r, none) ∧
      s.reverse_[s.count - 1]? = some L ∧ i < s.count ∧
      r.dense_.length = s.count - 1 ∧ r.reverse_.length = s.count - 1 ∧
      (∀ j, j < s.count - 1 → j ≠ i →
        r.dense_[j]? = s.dense_[j]? ∧ r.reverse_[j]? = s.reverse_[j]?) ∧
      (i < s.count - 1 →
        r.dense_[i]? = s.dense_[s.count - 1]? ∧ r.reverse_[i]? = some L ∧
        r.sparse_[L]? = some i) ∧
      r.sparse_[e]? = some (SIZE_MAX w) ∧
      (∀ e', e' ≠ e → e' ≠ L → r.sparse_[e']? = s.sparse_[e']?) ∧
      (i = s.count - 1 →
        L = e ∧ r.dense_ = s.dense_.dropLast ∧ r.reverse_ = s.reverse_.dropLast ∧
        r.sparse_ = s.sparse_.set e (SIZE_MAX w)) := by
  have hinv := h.inv
  obtain ⟨hin, hri⟩ := hinv.fwd e i hi hne
  obtain ⟨L, a, b, hL, ha, hb, hr⟩ := remove_swap_ok hinv e i hi hne
  have hlen := hinv.len
  have hvalid : e < s.sparse_.length := (List.getElem?_eq_some.mp hi).1
  have hLs := hinv.bwd _ _ hL
  have hLlt : L < s.sparse_.length := (List.getElem?_eq_some.mp hLs).1
  have hn1 : s.dense_.length - 1 + 1 = s.dense_.length := by omega
  have hn2 : s.dense_.length - 1 + 1 = s.reverse_.length := by omega
  refine ⟨_, L, hr, hL, hin, by simp [count], by simp [count, hlen], ?_, ?_, ?_, ?_, ?_⟩
  · intro j hj hji
    unfold count at hj
    simp only
    rw [swap_pop_getElem? _ _ _ _ _ hn1, swap_pop_getElem? _ _ _ _ _ hn2]
    simp [hj, hji]
  · intro hilt
    unfold count at hilt ⊢
    simp only
    rw [swap_pop_getElem? _ _ _ _ _ hn1, swap_pop_getElem? _ _ _ _ _ hn2]
    have heL : e ≠ L := by
      rintro rfl
      rw [hi] at hLs
      have := Option.some.inj hLs
      omega
    refine ⟨by simp [hilt, hb], by simp [hilt], ?_⟩
    rw [List.getElem?_set_ne heL, List.getElem?_set]
    simp [hLlt]
  · simp [List.getElem?_set, hvalid]
  · intro e' he1 he2
    simp only
    rw [List.getElem?_set_ne (fun hx => he1 hx.symm), List.getElem?_set_ne (fun hx => he2 hx.symm)]
  · intro hieq
    unfold count at hieq
    have hLe : L = e := by
      rw [← hieq, hri] at hL
      exact (Option.some.inj hL).symm
    subst hLe
    subst hieq
    refine ⟨rfl, swap_pop_last _ _ _ _ hn1, swap_pop_last _ _ _ _ hn2, List.set_set _ _ _ _⟩

/-- C17 at `remove_swap(0)` after `insert(0, 10)`, `insert(3, 40)` and
`insert(1, 7)`: the last component 7 and its id 1 move to position 0. -/
theorem swap_removal_step_witness :
    ∃ r, ((((Sparse.init 64 Nat 4 4).insert 0 10).1.insert 3 40).1.insert 1 7).1.remove_swap 0 =
        .ok (r, none) ∧
      r.dense_ = [7, 40] ∧ r.reverse_ = [1, 3] ∧
      r.sparse_ = [SIZE_MAX 64, 0, SIZE_MAX 64, 1] := by
  obtain ⟨r, L, hr, _⟩ := swap_removal_step
    ((((Sparse.init 64 Nat 4 4).insert 0 10).1.insert 3 40).1.insert 1 7).1
    (Reachable.insert 1 7 (Reachable.insert 3 40 (Reachable.insert 0 10
      (Reachable.init 4 4 (by decide) (by decide))))) 0 0 (by decide) (by decide)
  have hr2 : ((((Sparse.init 64 Nat 4 4).insert 0 10).1.insert 3 40).1.insert 1 7).1.remove_swap
      0 = .ok (
        { sparse_ := [SIZE_MAX 64, 0, SIZE_MAX 64, 1], reverse_ := [1, 3], dense_ := [7, 40],
          sparse_capacity := 4 }, none) := by decide
  rw [hr2] at hr
  cases hr
  exact ⟨_, hr2, rfl, rfl, rfl⟩

/-- C18. Partial clears break the invariants. With sparse capacity 4, after
`insert(0, 10)` (a reachable state that satisfies them): `clear_dense()` alone
leaves `dense_` shorter than `reverse_` and the sparse slot of id 0 holding
position 0, which is not below `len(dense_)`, so `contains(0)` is true while
`count()` is 0; `clear_binding()` alone violates invariant 1 and invariant 3;
`clear_sparse()` alone violates invariant 3. -/
theorem partial_clear_breaks :
    Reachable ((Sparse.init 64 Nat 4 4).insert 0 10).1 ∧
    ¬ invariant1 ((Sparse.init 64 Nat 4 4).insert 0 10).1.clear_dense ∧
    ¬ invariant2 ((Sparse.init 64 Nat 4 4).insert 0 10).1.clear_dense ∧
    ((Sparse.init 64 Nat 4 4).insert 0 10).1.clear_dense.dense_.length ≠
      ((Sparse.init 64 Nat 4 4).insert 0 10).1.clear_dense.reverse_.length ∧
    ((Sparse.init 64 Nat 4 4).insert 0 10).1.clear_dense.sparse_[0]? = some 0 ∧
    ((Sparse.init 64 Nat 4 4).insert 0 10).1.clear_dense.dense_.length ≤ 0 ∧
    ((Sparse.init 64 Nat 4 4).insert 0 10).1.clear_dense.contains 0 = true ∧
    ((Sparse.init 64 Nat 4 4).insert 0 10).1.clear_dense.count = 0 ∧
    ¬ invariant1 ((Sparse.init 64 Nat 4 4).insert 0 10).1.clear_binding ∧
    ¬ invariant3 ((Sparse.init 64 Nat 4 4).insert 0 10).1.clear_binding ∧
    ¬ invariant3 ((Sparse.init 64 Nat 4 4).insert 0 10).1.clear_sparse := by
  refine ⟨Reachable.insert 0 10 (Reachable.init 4 4 (by decide) (by decide)), ?_, ?_, by decide,
    by decide, by decide, by decide, by decide, ?_, ?_, ?_⟩
  · unfold invariant1
    decide
  · intro h
    have := (h 0 0 (by decide) (by decide)).1
    exact absurd this (by decide)
  · unfold invariant1
    decide
  · intro h
    obtain ⟨e, he, _⟩ := h 0 (by decide)
    have hnone : (none : Option Nat) = some e := he
    cases hnone
  · intro h
    obtain ⟨e, _, hlt, _⟩ := h 0 (by decide)
    exact absurd hlt (Nat.not_lt_zero e)

/-- C19. In a reachable state, for a valid id `e` that has no component and
every value `v`: `insert(e, v)` succeeds and `remove_swap(e)` after it returns
the state before the insert, equal in `sparse_`, `dense_` and `reverse_`, so
the iteration is the one before the insert, in the same order. -/
theorem insert_remove_undo {w : Nat} {T : Type} (s : Sparse w T) (h : Reachable s) (e : Nat)
    (v : T) (hv : e < s.sparse_.length) (hc : s.contains e = false) :
    (s.insert e v).2 = none ∧
    (s.insert e v).1.remove_swap e = .ok (s, none) ∧
    ∀ r, (s.insert e v).1.remove_swap e = .ok r →
      r.1.sparse_ = s.sparse_ ∧ r.1.dense_ = s.dense_ ∧ r.1.reverse_ = s.reverse_ ∧
      r.1.iterate = s.iterate := by
  have hr := remove_insert_ok h.inv e v hv hc
  refine ⟨by rw [insert_ok s e v hv hc], hr, ?_⟩
  intro r hr2
  rw [hr] at hr2
  cases hr2
  exact ⟨rfl, rfl, rfl, rfl⟩

/-- C19 at `insert(1, 7)` and `remove_swap(1)` after `insert(0, 10)` and
`insert(3, 40)`. -/
theorem insert_remove_undo_witness :
    ((((Sparse.init 64 Nat 4 4).insert 0 10).1.insert 3 40).1.insert 1 7).1.remove_swap 1 =
      .ok ((((Sparse.init 64 Nat 4 4).insert 0 10).1.insert 3 40).1, none) :=
  (insert_remove_undo _ (Reachable.insert 3 40 (Reachable.insert 0 10
    (Reachable.init 4 4 (by decide) (by decide)))) 1 7 (by decide) (by decide)).2.1

/-- C20 (index safety). In a reachable state and for every id: `remove_swap`
returns, so none of its subscripts is out of bounds; when it passes both checks
`dense_` is not empty, `dense_.size() - 1` does not wrap, and `sparse_[id]`,
`reverse_[last]`, `dense_[component_index]`, `dense_[size - 1]`,
`reverse_[component_index]`, `sparse_[last_entity_id]` and the second
`sparse_[id]` are within their arrays; `insert` and `emplace_default` with the
subscript checked return what the unchecked ones return; `get` and
`operator[]` return, with a position inside `dense_`. -/
theorem index_safety {w : Nat} {T : Type} (s : Sparse w T) (h : Reachable s) (id : Nat) :
    (∃ r, s.remove_swap id = .ok r) ∧
    (s.contains id = true →
      ∃ component_index last_entity_id,
        s.sparse_[id]? = some component_index ∧
        0 < s.dense_.length ∧
        size_sub w s.dense_.length 1 = s.dense_.length - 1 ∧
        s.reverse_[s.dense_.length - 1]? = some last_entity_id ∧
        component_index < s.dense_.length ∧
        s.dense_.length - 1 < s.dense_.length ∧
        component_index < s.reverse_.length ∧
        s.dense_.length - 1 < s.reverse_.length ∧
        last_entity_id < s.sparse_.length ∧
        id < (s.sparse_.set last_entity_id component_index).length) ∧
    (∀ v, s.insert_checked id v = .ok (s.insert id v)) ∧
    (∀ [Inhabited T], s.emplace_default_checked id = .ok (s.emplace_default id)) ∧
    (∃ p, s.get id = .ok p) ∧
    (∃ p, s.subscript id = .ok p) ∧
    (∀ p, s.get id = .ok (some p) → p < s.dense_.length) := by
  have hinv := h.inv
  refine ⟨?_, ?_, insert_checked_eq s id, fun {_} => emplace_default_checked_eq s id,
    get_total hinv id, get_total hinv id, ?_⟩
  · obtain ⟨r, hr, _⟩ := hinv.remove_swap id
    exact ⟨r, hr⟩
  · intro hc
    obtain ⟨i, hi, hne⟩ := (contains_eq_true_iff s id).mp hc
    obtain ⟨hin, hri⟩ := hinv.fwd id i hi hne
    obtain ⟨L, a, b, hL, _, _, _⟩ := remove_swap_ok hinv id i hi hne
    have hlen := hinv.len
    have hLlt : L < s.sparse_.length := (List.getElem?_eq_some.mp (hinv.bwd _ _ hL)).1
    have hn : s.dense_.length < 2 ^ w := by
      have := hinv.dense_lt
      have := pow_pos_w w
      unfold SIZE_MAX at *
      omega
    refine ⟨i, L, hi, by omega, size_sub_one w _ (by omega) hn, hL, hin, by omega, by omega,
      by omega, hLlt, ?_⟩
    rw [List.length_set]
    exact (List.getElem?_eq_some.mp hi).1
  · intro p hp
    cases hc : s.contains id
    · rw [get_of_absent s id hc] at hp
      cases hp
    · obtain ⟨i, hi, hne⟩ := (contains_eq_true_iff s id).mp hc
      have hlt := (hinv.fwd id i hi hne).1
      rw [get_of_present hinv id i hi hne] at hp
      cases hp
      exact hlt

/-- C20 at the ids 0 (has a component) and 9 (out of range) after
`insert(0, 10)` with sparse capacity 4. -/
theorem index_safety_witness :
    (∃ r, ((Sparse.init 64 Nat 4 4).insert 0 10).1.remove_swap 0 = .ok r) ∧
    (∃ p, ((Sparse.init 64 Nat 4 4).insert 0 10).1.get 9 = .ok p) :=
  ⟨(index_safety _ (Reachable.insert 0 10 (Reachable.init 4 4 (by decide) (by decide))) 0).1,
   (index_safety _ (Reachable.insert 0 10 (Reachable.init 4 4 (by decide) (by decide)))
      9).2.2.2.2.1⟩

end Exotic
